import Mathlib

/-!
# Verification of the YouTube comment analyzer's ingestion and aggregation pipeline

This file gives a shallow embedding of the core of the extension's two-stage
pipeline and proves (or refutes) the frozen claims about it.

Embedded source parts:
* the hardened background script (`fetchWithRetry`, `fetchReplies`,
  `fetchAllComments`, the `fetchComments` message listener), where JavaScript
  numbers are modelled as `ℚ`, fallible steps as `Except String`, unbounded
  `do…while` cursor loops as fuel-indexed recursion (`none` = the loop has not
  finished within the given fuel), and the network as an explicit source
  function supplied as a parameter;
* the legacy background copy appended to the popup script (its `fetchWithRetry`
  variant with a constant retry delay and a reason-free exhaustion error);
* the popup aggregation functions (`getSentimentCounts`, `toDateFromAny`,
  `processTimelineData`, `processWordCloudData`, the pure computation inside
  `renderDetailedBreakdown`, and the record normalization in
  `updateCommentsData`).

JavaScript objects used as string-keyed dictionaries are modelled as
insertion-ordered association lists, mirroring object key enumeration order.
Logging, DOM rendering, chart configuration and `chrome.*` side effects are
outside the model; the random word-cloud rotation decoration is abstracted by
an explicit oracle parameter.  Text processing is done on `List Char`
(`String.data`) with structural recursion.
-/

namespace YTA

/-! ## JavaScript-style helpers -/

/-- Truthiness of a JS string value (`undefined`/`null`/`""` are falsy):
`none` models `undefined`/`null`. -/
def jsTruthy : Option String → Bool
  | none => false
  | some s => s != ""

/-- The JS idiom `s || d` for an optional string `s` with default `d`
(empty string is falsy and also replaced). -/
def jsOrDefault (s : Option String) (d : String) : String :=
  match s with
  | none => d
  | some s => if s = "" then d else s

/-- One step of `obj[k] = (obj[k] || 0) + 1` on an object modelled as an
insertion-ordered association list: an existing key is incremented in place,
a new key is appended with value 1. -/
def bumpKey (m : List (String × Nat)) (k : String) : List (String × Nat) :=
  if m.any (fun p => p.1 == k) then
    m.map (fun p => if p.1 == k then (p.1, p.2 + 1) else p)
  else m ++ [(k, 1)]

/-- Whether `sub` matches `l` at its head. -/
def leadMatch : List Char → List Char → Bool
  | [], _ => true
  | _ :: _, [] => false
  | a :: as, b :: bs => a == b && leadMatch as bs

/-- Whether `sub` occurs contiguously anywhere in `l`. -/
def containsRun (sub : List Char) : List Char → Bool
  | [] => leadMatch sub []
  | c :: cs => leadMatch sub (c :: cs) || containsRun sub cs

/-- Whether `sub` occurs as a substring of `msg` — used to state whether an
error message carries a given piece of information. -/
def mentionsSubstring (msg sub : String) : Prop := containsRun sub.data msg.data = true

instance (msg sub : String) : Decidable (mentionsSubstring msg sub) :=
  inferInstanceAs (Decidable (containsRun sub.data msg.data = true))

/-! ## Resilient Fetcher: `fetchWithRetry` (hardened background script)

One network attempt is an abstract `FetchAttempt`: either the `fetch()` call
itself rejects, or it yields an HTTP response with `ok` flag, status, status
text and raw body text.  `JSON.parse` and the extraction of a structured
`error.message` field from a parsed body are abstracted by the parameters
`parse` and `errField` (the repository does not include a JSON parser;
only how its outcomes are consumed matters here). -/

/-- Outcome of one `fetch(url)` call, as observed by `fetchWithRetry`.
`resp.text()` has a `.catch(() => "")`, so capturing the body never fails. -/
inductive FetchAttempt where
  | netFail (msg : String)
  | httpResponse (ok : Bool) (status : Nat) (statusText : String) (text : String)
deriving Repr, DecidableEq

variable {α : Type}

/-- The body of one iteration of the hardened `fetchWithRetry` `try` block:
mirrors lines 138–167 of the background script.  Note the quirk of the
source: the `throw new Error("YouTube API error: …")` sits inside the inner
`try`, so it is caught by its own `catch (jsonErr)` and replaced by the
`HTTP <status>: <snippet>` error; and a non-ok response whose body parses but
carries no `error.message` falls through to the success path. -/
def attemptEval (parse : String → Option α) (errField : α → Option String) :
    FetchAttempt → Except String α
  | .netFail m => .error m
  | .httpResponse ok status statusText text =>
    -- `JSON.parse(text || "{}")`
    let body := if text = "" then "\x7b\x7d" else text
    let successParse : Except String α :=
      match parse body with
      | some j => .ok j
      | none => .error "Failed to parse JSON response"
    if ok then successParse
    else
      let snippet := text.take 300
      let httpErr := "HTTP " ++ toString status ++ ": " ++
        (if snippet = "" then statusText else snippet)
      match parse body with
      | none => .error httpErr
      | some j =>
        match errField j with
        | some _ => .error httpErr
        | none => successParse

/-- Observable result of a `fetchWithRetry` run: how many attempts were made,
the sequence of delays (ms) slept between attempts, and the final outcome. -/
structure RetryTrace (α : Type) where
  attempts : Nat
  delays : List Nat
  result : Except String α
deriving Repr

/-- The exhaustion error of the hardened `fetchWithRetry` (line 177):
`Failed fetching URL after ${retries} attempts: ${err.message}`.  Note that
the url itself is not interpolated into the message (it is only logged). -/
def exhaustMsg (retries : Nat) (lastReason : String) : String :=
  "Failed fetching URL after " ++ toString retries ++ " attempts: " ++ lastReason

/-- The post-loop error of the hardened `fetchWithRetry` (line 182). -/
def unexpectedEndMsg : String := "fetchWithRetry reached unexpected end"

/-- The `for (let i = 0; i < retries; i++)` loop of the hardened
`fetchWithRetry`, lines 136–180.  `i` is the attempt index, `rem + 1` the
number of loop iterations still allowed (`rem + 1 = retries - i`); `rem = 0`
means this is the last attempt, on whose failure the exhaustion error is
thrown; otherwise the code sleeps `delay * (1 + i)` ms and retries.  Falling
out of the loop (`rem = 0` at entry, i.e. `retries = 0`) reaches line 182. -/
def fetchRetryGo (attempt : Nat → Except String α) (retries delay : Nat) :
    Nat → Nat → RetryTrace α
  | i, 0 => ⟨i, [], .error unexpectedEndMsg⟩
  | i, rem + 1 =>
    match attempt i with
    | .ok v => ⟨i + 1, [], .ok v⟩
    | .error e =>
      if rem = 0 then ⟨i + 1, [], .error (exhaustMsg retries e)⟩
      else
        let t := fetchRetryGo attempt retries delay (i + 1) rem
        ⟨t.attempts, delay * (1 + i) :: t.delays, t.result⟩

/-- Hardened `fetchWithRetry(url, retries, delay)` (background script,
lines 134–183) over an abstract per-attempt network behaviour.  The `url`
parameter is carried for faithfulness: the source uses it only to issue the
request and in log statements, never in the produced error value. -/
def fetchWithRetry (parse : String → Option α) (errField : α → Option String)
    (url : String) (net : Nat → FetchAttempt) (retries delay : Nat) : RetryTrace α :=
  let _ := url
  fetchRetryGo (fun i => attemptEval parse errField (net i)) retries delay 0 retries

/-- The exhaustion error of the legacy `fetchWithRetry` copy in the popup
file (line 1007): thrown after the loop exits, with no attached reason. -/
def exhaustMsgOld (retries : Nat) : String :=
  "Failed fetching URL after " ++ toString retries ++ " attempts"

/-- The loop of the legacy `fetchWithRetry` (popup file, lines 964–1008): the
retry delay is the constant `delay` (not scaled by the attempt index), a
failed last attempt only logs, and the single `throw` after the loop
produces the reason-free exhaustion error for both the zero-retries and the
all-attempts-failed exits.  The per-attempt body is abstracted directly as
`attempt`. -/
def fetchRetryGoOld (attempt : Nat → Except String α) (retries delay : Nat) :
    Nat → Nat → RetryTrace α
  | i, 0 => ⟨i, [], .error (exhaustMsgOld retries)⟩
  | i, rem + 1 =>
    match attempt i with
    | .ok v => ⟨i + 1, [], .ok v⟩
    | .error _ =>
      if rem = 0 then ⟨i + 1, [], .error (exhaustMsgOld retries)⟩
      else
        let t := fetchRetryGoOld attempt retries delay (i + 1) rem
        ⟨t.attempts, delay :: t.delays, t.result⟩

/-- Legacy `fetchWithRetry(url, retries, delay)` (popup file lines 964–1008). -/
def fetchWithRetryOld (attempt : Nat → Except String α) (retries delay : Nat) :
    RetryTrace α :=
  fetchRetryGoOld attempt retries delay 0 retries

/-! ## Page Walker: `fetchReplies` and `fetchAllComments`

The remote paginated source is a function from a page token (`""` models the
absent first-page token, mirroring `data.nextPageToken || ""`) to either a
page or a failure of the whole `fetchWithRetry` call for that page.  Normalized
items are kept abstract (`α`); the cursor `do…while` loops are fuel-indexed,
`none` meaning the loop has not finished within the given fuel (so a source
that never stops producing tokens yields `none` at every fuel). -/

/-- One page of a paginated API response: its item list and
`nextPageToken || ""`. -/
structure ApiPage (α : Type) where
  items : List α
  nextPageToken : String
deriving Repr, DecidableEq

/-- Outcome of one cursor walk: finished normally, or aborted by a failed
page fetch with the items accumulated before the failure. -/
inductive WalkResult (α : Type) where
  | done (items : List α)
  | failed (err : String) (partItems : List α)
deriving Repr, DecidableEq

/-- The `do…while (pageToken)` loop shared by `fetchReplies` (lines 194–225)
and (in shape) `fetchAllComments`: request the page for the current token,
append its items, stop when the response carries no `nextPageToken`. -/
def walkGo (src : String → Except String (ApiPage α)) :
    Nat → String → List α → Option (WalkResult α)
  | 0, _, _ => none
  | fuel + 1, pageToken, acc =>
    match src pageToken with
    | .error e => some (.failed e acc)
    | .ok page =>
      let acc' := acc ++ page.items
      if page.nextPageToken = "" then some (.done acc')
      else walkGo src fuel page.nextPageToken acc'

/-- `fetchReplies(parentId, apiKey)` (background script, lines 186–234): the
whole loop is wrapped in `try … catch`, and on failure the function returns
the replies accumulated so far instead of rethrowing (source comment:
"Return partial replies rather than rethrowing"). -/
def fetchReplies (src : String → Except String (ApiPage α)) (fuel : Nat) :
    Option (List α) :=
  (walkGo src fuel "" []).map fun r =>
    match r with
    | .done l => l
    | .failed _ l => l

/-- One item of a `commentThreads` page as consumed by `fetchAllComments`:
the id of its top-level comment, the normalized comment when the snippet is
present and normalizes without throwing (`none` models both a missing
snippet and the caught per-comment parse error), and `totalReplyCount`. -/
structure OuterItem (α : Type) where
  id : String
  comment : Option α
  totalReplyCount : Nat
deriving Repr, DecidableEq

/-- A page of the outer `commentThreads` walk. -/
structure OuterPage (α : Type) where
  items : List (OuterItem α)
  nextPageToken : String
deriving Repr, DecidableEq

/-- The remote source as seen by `fetchAllComments`: the outer
`commentThreads` pages by cursor, and the `comments` (reply) pages by
parent id and cursor. -/
structure CommentsSource (α : Type) where
  threads : String → Except String (OuterPage α)
  replies : String → String → Except String (ApiPage α)

/-- The `for (const item of data.items)` body of `fetchAllComments`
(lines 255–284): push the normalized top-level comment when present, then,
when `totalReplyCount > 0`, run the nested reply walk and append its result
(`fetchReplies` never rejects, and the extra `.catch(() => [])` is dead
code).  `none` only when a nested walk exceeds its fuel. -/
def processItems (src : CommentsSource α) (replyFuel : Nat) :
    List (OuterItem α) → List α → Option (List α)
  | [], acc => some acc
  | it :: rest, acc =>
    let acc' := acc ++ (match it.comment with | some c => [c] | none => [])
    if it.totalReplyCount > 0 then
      match fetchReplies (src.replies it.id) replyFuel with
      | none => none
      | some rs => processItems src replyFuel rest (acc' ++ rs)
    else processItems src replyFuel rest acc'

/-- The outer `do…while (pageToken)` loop of `fetchAllComments`
(lines 244–295).  Progress notifications and the 200 ms throttle pause are
side effects outside the model. -/
def fetchAllGo (src : CommentsSource α) (replyFuel : Nat) :
    Nat → String → List α → Option (WalkResult α)
  | 0, _, _ => none
  | fuel + 1, pageToken, acc =>
    match src.threads pageToken with
    | .error e => some (.failed e acc)
    | .ok page =>
      match processItems src replyFuel page.items acc with
      | none => none
      | some acc' =>
        if page.nextPageToken = "" then some (.done acc')
        else fetchAllGo src replyFuel fuel page.nextPageToken acc'

/-- `fetchAllComments(videoId, apiKey)` (background script, lines 236–304):
on success the accumulated comments; an outer page failure is caught and
rethrown as the normalized run error of line 302. -/
def fetchAllComments (src : CommentsSource α) (replyFuel fuel : Nat)
    (videoId : String) : Option (Except String (List α)) :=
  (fetchAllGo src replyFuel fuel "" []).map fun r =>
    match r with
    | .done l => .ok l
    | .failed e _ =>
      .error ("Failed to fetch comments for video " ++ videoId ++ ": " ++ e)

/-- The continuation-token successor function of a source: the token the walk
would request next after requesting `c` (`""` both for "response had no
token" and for "request failed", since both end the loop). -/
def nextTokenOf (src : String → Except String (ApiPage α)) (c : String) : String :=
  match src c with
  | .error _ => ""
  | .ok page => page.nextPageToken

/-- The cursor chain of a source starting from an arbitrary token:
`tokenChainFrom src c n` is the token requested by the `n`-th iteration of a
walk started at `c`. -/
def tokenChainFrom (src : String → Except String (ApiPage α)) (c : String) : Nat → String
  | 0 => c
  | n + 1 => nextTokenOf src (tokenChainFrom src c n)

/-- The cursor chain of a source starting from the first-page token `""`:
`tokenChain src n` is the token requested by iteration `n` of the walk. -/
def tokenChain (src : String → Except String (ApiPage α)) : Nat → String :=
  tokenChainFrom src ""

/-! ## Ingestion Coordinator: the `fetchComments` message listener

The listener (background script, lines 349–412) is modelled as a function
from the inputs it consults to the list of `sendResponse` calls it makes, in
order.  `sendAllComments` catches all of its own failures internally and
never calls `sendResponse`, so its outcome does not appear here. -/

/-- A value passed to `sendResponse`. -/
inductive ListenerResponse where
  | success (totalComments : Nat)
  | failure (error : String)
deriving Repr, DecidableEq

/-- The environment a `fetchComments` run consults.  `tabUrl` is the active
tab's url (`none`: no tab or no url); `urlV` is the outcome of
`new URL(tab.url).searchParams.get("v")` (`none`: the `URL` constructor
threw, which the source catches and logs); `apiKey` is the outcome of
`storageGet("ytApiKey")` (a rejection is caught and replaced by `null`);
`fetchResult` abstracts the (terminating) `fetchAllComments` +
`sendAllComments` stage, `.error` being a thrown error's message. -/
structure ListenerEnv (α : Type) where
  reqVideoId : Option String
  tabUrl : Option String
  urlV : Option (Option String)
  apiKey : Except String (Option String)
  fetchResult : Except String (List α)

/-- Video-id resolution, lines 355–376: use `request.videoId` when truthy,
else derive it from the active tab's url; each failure branch calls
`sendResponse` with the corresponding error and returns. -/
def resolveVideoId (env : ListenerEnv α) : Except ListenerResponse String :=
  let fromTab : Except ListenerResponse String :=
    if !(jsTruthy env.tabUrl) then
      .error (.failure "Could not determine active tab or URL")
    else
      let vid : Option String :=
        match env.urlV with
        | none => env.reqVideoId
        | some v => v
      if jsTruthy vid then .ok (vid.getD "") else .error (.failure "Video ID not provided.")
  if jsTruthy env.reqVideoId then .ok (env.reqVideoId.getD "") else fromTab

/-- The api key after `storageGet("ytApiKey").catch(() => null)` and the
`!apiKey` truthiness check. -/
def apiKeyValue (env : ListenerEnv α) : Option String :=
  match env.apiKey with
  | .error _ => none
  | .ok k => if jsTruthy k then k else none

/-- The `fetchComments` branch of the message listener, lines 352–411, as the
ordered list of `sendResponse` calls it performs. -/
def handleFetchComments (env : ListenerEnv α) : List ListenerResponse :=
  match resolveVideoId env with
  | .error resp => [resp]
  | .ok _ =>
    match apiKeyValue env with
    | none => [.failure "YouTube API key not set."]
    | some _ =>
      match env.fetchResult with
      | .error e => [.failure e]
      | .ok comments => [.success comments.length]

/-! ## Popup data model

`Record` is one entry of the popup's `commentsData` state after the
normalization in `updateCommentsData`; `Prediction` is one raw entry of
`analysisResults.comments` read back from storage.  Timestamps are JS
numbers, modelled as `ℚ` (the classifier echoes the numeric epoch-seconds
values computed at ingestion; `NaN` becomes `null` over JSON and so `none`
here). -/

structure Record where
  id : String
  text : String
  sentiment : String
  strength : String
  topic : String
  timestamp : ℚ
  emojis : List String
deriving Repr, DecidableEq, Inhabited

structure Prediction where
  id : String
  text : String
  sentiment : Option String
  sentimentStrength : Option String
  topic : Option String
  timestamp : Option ℚ
  emojis : Option (List String)
deriving Repr, DecidableEq

/-- The per-prediction normalization inside `updateCommentsData` (popup,
lines 106–114): `p.sentiment?.toLowerCase() || 'neutral'`,
`p.sentimentStrength?.toLowerCase() || 'weak'`, `p.topic || 'General'`,
`p.timestamp || 0`, `p.emojis || []`. -/
def normalizeComment (p : Prediction) : Record :=
  { id := p.id
  , text := p.text
  , sentiment := jsOrDefault (p.sentiment.map String.toLower) "neutral"
  , strength := jsOrDefault (p.sentimentStrength.map String.toLower) "weak"
  , topic := jsOrDefault p.topic "General"
  , timestamp := p.timestamp.getD 0
  , emojis := p.emojis.getD [] }

/-- `updateCommentsData` (popup, lines 99–121), restricted to its pure data
transformation: the stored predictions mapped through `normalizeComment`.
(The surrounding storage read, emptiness check and re-render are effects.) -/
def updateCommentsData (predictions : List Prediction) : List Record :=
  predictions.map normalizeComment

/-! ## Aggregation: sentiment counts -/

/-- `getSentimentCounts` (popup, lines 124–131): a `reduce` with initial
object `{ positive: 0, neutral: 0, negative: 0 }` performing
`acc[c.sentiment] = (acc[c.sentiment] || 0) + 1`; an unknown sentiment value
appends a new key to the object. -/
def getSentimentCounts (commentsData : List Record) : List (String × Nat) :=
  commentsData.foldl (fun acc c => bumpKey acc c.sentiment)
    [("positive", 0), ("neutral", 0), ("negative", 0)]

/-! ## Aggregation: timeline -/

/-- `toDateFromAny` (popup, lines 47–64), restricted to numeric timestamps
(the only kind ingestion produces): `!ts` drops `0`; a value `< 1e12` is
taken as epoch seconds and scaled to milliseconds, otherwise it is taken as
milliseconds.  Returns the epoch-millisecond value of the produced `Date`. -/
def toDateFromAny (ts : ℚ) : Option ℚ :=
  if ts = 0 then none
  else some (if ts < 1000000000000 then ts * 1000 else ts)

/-- One value of the `map` object in `processTimelineData`:
`{ bin, positive: 0, neutral: 0, negative: 0 }`. -/
structure TimelineBin where
  bin : Int
  positive : Nat
  neutral : Nat
  negative : Nat
deriving Repr, DecidableEq

/-- `map[bin][c.sentiment] += 1` (popup, line 143): the guard
`map[bin][c.sentiment] !== undefined` admits any of the four own properties
of the bin object, including `"bin"` itself (JS number increment). -/
def bumpTimelineBin (e : TimelineBin) (s : String) : TimelineBin :=
  if s == "bin" then { e with bin := e.bin + 1 }
  else if s == "positive" then { e with positive := e.positive + 1 }
  else if s == "neutral" then { e with neutral := e.neutral + 1 }
  else if s == "negative" then { e with negative := e.negative + 1 }
  else e

/-- `Math.floor(ts.getTime() / 1000)` then `Math.floor(sec / 30) * 30`
(popup, lines 139–140), on the epoch-millisecond value. -/
def binOfMs (ms : ℚ) : Int :=
  let sec : Int := ⌊ms / 1000⌋
  ⌊(sec : ℚ) / 30⌋ * 30

/-- The bin key a record lands in, when its timestamp resolves. -/
def tlKey (c : Record) : Option Int :=
  (toDateFromAny c.timestamp).map binOfMs

/-- One iteration of the `forEach` in `processTimelineData` (popup,
lines 136–144): skip unresolvable timestamps, create the bin entry when
absent (keyed by the original numeric key), then conditionally increment. -/
def tlStep (m : List (Int × TimelineBin)) (c : Record) : List (Int × TimelineBin) :=
  match tlKey c with
  | none => m
  | some b =>
    let m' := if m.any (fun p => p.1 == b) then m else m ++ [(b, ⟨b, 0, 0, 0⟩)]
    if c.sentiment != "" &&
        ["bin", "positive", "neutral", "negative"].contains c.sentiment then
      m'.map (fun p => if p.1 == b then (p.1, bumpTimelineBin p.2 c.sentiment) else p)
    else m'

/-- The ascending comparator `(a, b) => a.bin - b.bin` of line 145. -/
def tlLE (a b : TimelineBin) : Prop := a.bin ≤ b.bin

instance : DecidableRel tlLE := fun a b => inferInstanceAs (Decidable (a.bin ≤ b.bin))

instance : IsTotal TimelineBin tlLE := ⟨fun a b => le_total a.bin b.bin⟩

instance : IsTrans TimelineBin tlLE := ⟨fun _ _ _ h1 h2 => le_trans h1 h2⟩

/-- `processTimelineData` (popup, lines 133–152): accumulate the bin map,
then `Object.values(map).sort((a, b) => a.bin - b.bin)` (a stable sort,
modelled by insertion sort). -/
def processTimelineData (commentsData : List Record) : List TimelineBin :=
  List.insertionSort tlLE ((commentsData.foldl tlStep []).map (fun p => p.2))

/-! ## Aggregation: word cloud -/

/-- The fixed stopword set of the popup (lines 11–17). -/
def stopWords : List String :=
  ["the", "a", "an", "and", "or", "but", "is", "are", "was", "were", "to",
   "in", "of", "for", "on", "with", "from", "as", "at", "it", "this", "that",
   "so", "what", "you", "i", "me", "my", "he", "she", "we", "they", "our",
   "their", "your", "be", "been", "about", "just", "can", "cant", "would",
   "will", "go", "up", "down", "out", "off", "too", "very", "here", "there",
   "who", "how", "when", "why", "like", "video", "content", "quality"]

/-- The punctuation class removed by `.replace(/[.,!?'"()\/]/g, '')`. -/
def isWordCloudPunct (c : Char) : Bool :=
  c == '.' || c == ',' || c == '!' || c == '?' || c == '\'' || c == '"' ||
  c == '(' || c == ')' || c == '/'

/-- Splitting a character list at whitespace (`.split(/\s+/)`).  A run of
whitespace here yields empty pieces where the JS regex yields none, but all
empty pieces are discarded by the `w.length > 2` filter that consumes this. -/
def splitWsGo : List Char → List Char → List (List Char)
  | [], cur => [cur.reverse]
  | c :: cs, cur =>
    if c.isWhitespace then cur.reverse :: splitWsGo cs []
    else splitWsGo cs (c :: cur)

/-- `c.text.toLowerCase().replace(/[.,!?'"()\/]/g, '')` for each record,
joined with `' '` (popup, line 180). -/
def wcAllText (commentsData : List Record) : List Char :=
  List.intercalate [' ']
    (commentsData.map (fun c =>
      (c.text.data.map Char.toLower).filter (fun ch => !(isWordCloudPunct ch))))

/-- The token tally object of `processWordCloudData` (popup, lines 179–183):
split on whitespace, keep tokens of length `> 2` outside the stopword set,
count occurrences. -/
def wcCounts (commentsData : List Record) : List (String × Nat) :=
  ((splitWsGo (wcAllText commentsData) []).map (fun w => String.mk w)).foldl
    (fun m w =>
      if w.length > 2 && !(stopWords.contains w) then bumpKey m w else m)
    []

/-- The descending comparator `([, a], [, b]) => b - a` of line 184. -/
def wcGE (a b : String × Nat) : Prop := b.2 ≤ a.2

instance : DecidableRel wcGE := fun a b => inferInstanceAs (Decidable (b.2 ≤ a.2))

instance : IsTotal (String × Nat) wcGE := ⟨fun a b => le_total b.2 a.2⟩

instance : IsTrans (String × Nat) wcGE := ⟨fun _ _ _ h1 h2 => le_trans h2 h1⟩

/-- `Object.entries(counts).sort(([, a], [, b]) => b - a)` (a stable sort,
modelled by insertion sort). -/
def wcSorted (commentsData : List Record) : List (String × Nat) :=
  List.insertionSort wcGE (wcCounts commentsData)

/-- `sorted.length ? sorted[0][1] : 1` (line 185). -/
def wcMax (commentsData : List Record) : Nat :=
  match (wcSorted commentsData).head? with
  | some x => x.2
  | none => 1

/-- `sorted.length ? sorted[sorted.length - 1][1] : 1` (line 186). -/
def wcMin (commentsData : List Record) : Nat :=
  match (wcSorted commentsData).getLast? with
  | some x => x.2
  | none => 1

/-- The normalized size of line 187:
`max === min ? 2 : 1 + (count - min) / (max - min) * 4`. -/
def wcScale (maxC minC count : Nat) : ℚ :=
  if maxC = minC then 2
  else 1 + ((count : ℚ) - (minC : ℚ)) / ((maxC : ℚ) - (minC : ℚ)) * 4

/-- One element of the word-cloud output (lines 188–192). -/
structure WordCloudEntry where
  word : String
  size : ℚ
  rotation : Int
deriving Repr, DecidableEq

/-- `processWordCloudData` (popup, lines 177–199).  The call
`Math.random() > 0.7 ? -90 : 0` per surfaced token is abstracted by the
oracle `rand`, queried at the token. -/
def processWordCloudData (rand : String → ℚ) (commentsData : List Record) :
    List WordCloudEntry :=
  ((wcSorted commentsData).take 30).map (fun p =>
    { word := p.1
    , size := wcScale (wcMax commentsData) (wcMin commentsData) p.2
    , rotation := if (7 : ℚ) / 10 < rand p.1 then -90 else 0 })

/-! ## Selection/Filter: detailed breakdown -/

/-- The pure computation of `renderDetailedBreakdown` (popup, lines 275–286):
filter by the selected sentiment, split by strength, percentages over
`allStrong.length + allWeak.length || 1`, first five examples of each class.
(`toFixed(1)` is display formatting; the values here are the exact
percentages.) -/
structure BreakdownView where
  filteredCount : Nat
  strongPercent : ℚ
  weakPercent : ℚ
  strongTop5 : List Record
  weakTop5 : List Record
deriving Repr, DecidableEq

def renderDetailedBreakdown (commentsData : List Record)
    (selectedSentiment : String) : BreakdownView :=
  let filtered := commentsData.filter (fun c => c.sentiment == selectedSentiment)
  let allStrong := filtered.filter (fun c => c.strength == "strong")
  let allWeak := filtered.filter (fun c => c.strength == "weak")
  let total : Nat :=
    if allStrong.length + allWeak.length = 0 then 1
    else allStrong.length + allWeak.length
  { filteredCount := filtered.length
  , strongPercent := (allStrong.length : ℚ) / (total : ℚ) * 100
  , weakPercent := (allWeak.length : ℚ) / (total : ℚ) * 100
  , strongTop5 := allStrong.take 5
  , weakTop5 := allWeak.take 5 }

/-! ## Concrete instances used by witnesses and counterexamples -/

/-- A record with the given sentiment, strength, timestamp and text, with the
remaining fields as the ingestion defaults produce them. -/
def sampleRec (sentiment strength : String) (ts : ℚ) (text : String) : Record :=
  { id := ""
  , text := text
  , sentiment := sentiment
  , strength := strength
  , topic := "General"
  , timestamp := ts
  , emojis := [] }

/-- A network that rejects every attempt with the same reason. -/
def alwaysFailNet : Nat → FetchAttempt := fun _ => .netFail "boom"

/-- A trivial body parser for the abstract payload type `Nat` (never parses);
the always-failing runs below never reach a parse. -/
def parseNone : String → Option Nat := fun _ => none

def errFieldNone : Nat → Option String := fun _ => none

/-- A `commentThreads` source that answers every cursor with an empty page
carrying the same continuation token `"a"` — the misbehaving source of the
spec's loop-guard invariant. -/
def cexC1Src : CommentsSource String :=
  { threads := fun _ => .ok ⟨[], "a"⟩
  , replies := fun _ _ => .ok ⟨[], ""⟩ }

/-- The spec's three-page walk example: `"" → "b" → "c" → ""`. -/
def threePageSrc : String → Except String (ApiPage String) :=
  fun tok =>
    if tok = "" then .ok ⟨["a1"], "b"⟩
    else if tok = "b" then .ok ⟨["b1"], "c"⟩
    else .ok ⟨["c1"], ""⟩

/-- An outer source whose single thread item has a nested reply walk that
succeeds for its first page and fails on the second. -/
def cexC5Src : CommentsSource String :=
  { threads := fun _ => .ok ⟨[⟨"p", some "c1", 2⟩], ""⟩
  , replies := fun _ tok => if tok = "" then .ok ⟨["r1"], "r2"⟩ else .error "boom" }

/-! ## Helper lemmas -/

/-- Keys of an association list. -/
def keysOf (m : List (String × Nat)) : List String := m.map Prod.fst

/-- Sum of the values of an association list. -/
def valsSum (m : List (String × Nat)) : Nat := (m.map Prod.snd).sum

lemma keysOf_cons (p : String × Nat) (m : List (String × Nat)) :
    keysOf (p :: m) = p.1 :: keysOf m := rfl

lemma bumpKey_keys_of_mem {m : List (String × Nat)} {k : String}
    (h : k ∈ keysOf m) : keysOf (bumpKey m k) = keysOf m := by
  have hany : m.any (fun p => p.1 == k) = true := by
    rcases List.mem_map.mp h with ⟨p, hp, rfl⟩
    exact List.any_eq_true.mpr ⟨p, hp, beq_self_eq_true _⟩
  unfold bumpKey
  rw [if_pos hany]
  unfold keysOf
  rw [List.map_map]
  refine List.map_congr_left (fun p _ => ?_)
  show (if p.1 == k then (p.1, p.2 + 1) else p).1 = p.1
  split <;> rfl

lemma bumpKey_map_id {m : List (String × Nat)} {k : String}
    (h : k ∉ keysOf m) :
    m.map (fun p => if p.1 == k then (p.1, p.2 + 1) else p) = m := by
  induction m with
  | nil => rfl
  | cons p rest ih =>
    have hpk : ¬((p.1 == k) = true) := by
      intro hpk
      exact h (keysOf_cons p rest ▸ List.mem_cons.mpr (Or.inl (beq_iff_eq.mp hpk).symm))
    have hrest : k ∉ keysOf rest := fun hk =>
      h (keysOf_cons p rest ▸ List.mem_cons.mpr (Or.inr hk))
    rw [List.map_cons, if_neg hpk, ih hrest]

lemma bumpKey_sum_of_mem {m : List (String × Nat)} {k : String}
    (nd : (keysOf m).Nodup) (h : k ∈ keysOf m) :
    valsSum (bumpKey m k) = valsSum m + 1 := by
  induction m with
  | nil => cases h
  | cons p rest ih =>
    obtain ⟨hnotin, ndrest⟩ := List.nodup_cons.mp (keysOf_cons p rest ▸ nd)
    have hany : (p :: rest).any (fun q => q.1 == k) = true := by
      rcases List.mem_map.mp h with ⟨q, hq, rfl⟩
      exact List.any_eq_true.mpr ⟨q, hq, beq_self_eq_true _⟩
    unfold bumpKey
    rw [if_pos hany]
    by_cases hpk : p.1 = k
    · have hknotin : k ∉ keysOf rest := hpk ▸ hnotin
      rw [List.map_cons, if_pos (beq_iff_eq.mpr hpk), bumpKey_map_id hknotin]
      show p.2 + 1 + valsSum rest = p.2 + valsSum rest + 1
      omega
    · have hkrest : k ∈ keysOf rest := by
        rcases List.mem_map.mp h with ⟨q, hq, hqk⟩
        rcases List.mem_cons.mp hq with rfl | hq
        · exact absurd hqk hpk
        · exact List.mem_map.mpr ⟨q, hq, hqk⟩
      have hanyrest : rest.any (fun q => q.1 == k) = true := by
        rcases List.mem_map.mp hkrest with ⟨q, hq, rfl⟩
        exact List.any_eq_true.mpr ⟨q, hq, beq_self_eq_true _⟩
      have ihr := ih ndrest hkrest
      unfold bumpKey at ihr
      rw [if_pos hanyrest] at ihr
      rw [List.map_cons, if_neg (by simpa using hpk)]
      show p.2 + valsSum (rest.map _) = p.2 + valsSum rest + 1
      have : valsSum (rest.map (fun q => if q.1 == k then (q.1, q.2 + 1) else q))
          = valsSum rest + 1 := ihr
      omega

lemma sentiment_fold (R : List Record) :
    ∀ m : List (String × Nat), (keysOf m).Nodup →
      (∀ c ∈ R, c.sentiment ∈ keysOf m) →
      keysOf (R.foldl (fun acc c => bumpKey acc c.sentiment) m) = keysOf m
      ∧ valsSum (R.foldl (fun acc c => bumpKey acc c.sentiment) m)
          = valsSum m + R.length := by
  induction R with
  | nil => intro m _ _; exact ⟨rfl, by simp⟩
  | cons c rest ih =>
    intro m nd hmem
    have hc : c.sentiment ∈ keysOf m := hmem c (List.mem_cons_self _ _)
    have hkeys := bumpKey_keys_of_mem hc
    have hsum := bumpKey_sum_of_mem nd hc
    have hrest : ∀ x ∈ rest, x.sentiment ∈ keysOf (bumpKey m c.sentiment) := by
      intro x hx; rw [hkeys]; exact hmem x (List.mem_cons_of_mem _ hx)
    have := ih (bumpKey m c.sentiment) (hkeys ▸ nd) hrest
    refine ⟨by rw [List.foldl_cons, this.1, hkeys], ?_⟩
    rw [List.foldl_cons, this.2, hsum]
    simp [Nat.add_assoc, Nat.add_comm 1 rest.length]

/-- One-step unfolding of the retry loop at a positive remaining count. -/
lemma fetchRetryGo_succ {α : Type} (att : Nat → Except String α)
    (retries delay i rem : Nat) :
    fetchRetryGo att retries delay i (rem + 1)
      = match att i with
        | .ok v => ⟨i + 1, [], .ok v⟩
        | .error e =>
          if rem = 0 then ⟨i + 1, [], .error (exhaustMsg retries e)⟩
          else
            let t := fetchRetryGo att retries delay (i + 1) rem
            ⟨t.attempts, delay * (1 + i) :: t.delays, t.result⟩ := rfl

lemma fetchRetryGo_allfail {α : Type} (att : Nat → Except String α) (E : Nat → String)
    (retries delay : Nat) (hE : ∀ j, att j = .error (E j)) :
    ∀ rem i, i + (rem + 1) = retries →
      fetchRetryGo att retries delay i (rem + 1)
        = ⟨retries, (List.range' i rem).map (fun j => delay * (1 + j)),
            .error (exhaustMsg retries (E (i + rem)))⟩ := by
  intro rem
  induction rem with
  | zero =>
    intro i hi
    conv_lhs => rw [fetchRetryGo_succ]
    simp only [hE i, if_pos rfl]
    exact congrArg (fun n => RetryTrace.mk n [] _) hi
  | succ r ih =>
    intro i hi
    have hr : ¬(r + 1 = 0) := Nat.succ_ne_zero r
    conv_lhs => rw [fetchRetryGo_succ]
    simp only [hE i]
    rw [if_neg hr]
    rw [ih (i + 1) (by omega)]
    have h1 : i + 1 + r = i + (r + 1) := by omega
    rw [h1]
    have hrange : List.range' i (r + 1) = i :: List.range' (i + 1) r := rfl
    rw [hrange]
    rfl

lemma fetchRetryGo_firstSuccess {α : Type} (att : Nat → Except String α)
    (retries delay : Nat) (k : Nat) (v : α)
    (hfail : ∀ j, j < k → ∃ e, att j = .error e) (hok : att k = .ok v) :
    ∀ rem i, i + (rem + 1) = retries → i ≤ k → k < retries →
      fetchRetryGo att retries delay i (rem + 1)
        = ⟨k + 1, (List.range' i (k - i)).map (fun j => delay * (1 + j)), .ok v⟩ := by
  intro rem
  induction rem with
  | zero =>
    intro i hi hik hk
    have hik' : i = k := by omega
    subst hik'
    conv_lhs => rw [fetchRetryGo_succ]
    simp only [hok]
    rw [Nat.sub_self]
    rfl
  | succ r ih =>
    intro i hi hik hk
    rcases Nat.lt_or_ge i k with hlt | hge
    · obtain ⟨e, he⟩ := hfail i hlt
      have hr : ¬(r + 1 = 0) := Nat.succ_ne_zero r
      conv_lhs => rw [fetchRetryGo_succ]
      simp only [he]
      rw [if_neg hr]
      rw [ih (i + 1) (by omega) (by omega) hk]
      have hki : k - i = (k - (i + 1)) + 1 := by omega
      rw [hki]
      have hrange : List.range' i ((k - (i + 1)) + 1)
          = i :: List.range' (i + 1) (k - (i + 1)) := rfl
      rw [hrange]
      rfl
    · have hik' : i = k := le_antisymm hik hge
      subst hik'
      conv_lhs => rw [fetchRetryGo_succ]
      simp only [hok]
      rw [Nat.sub_self]
      rfl

/-- The token chain shifted by one step (used to peel one walk iteration). -/
lemma tokenChainFrom_shift {α : Type} (src : String → Except String (ApiPage α)) :
    ∀ (n : Nat) (c : String),
      tokenChainFrom src c (n + 1) = tokenChainFrom src (nextTokenOf src c) n := by
  intro n
  induction n with
  | zero => intro c; rfl
  | succ m ih =>
    intro c
    show nextTokenOf src (tokenChainFrom src c (m + 1))
        = nextTokenOf src (tokenChainFrom src (nextTokenOf src c) m)
    rw [ih c]

/-- One-step unfolding of the cursor walk at positive fuel. -/
lemma walkGo_succ {α : Type} (src : String → Except String (ApiPage α))
    (fuel : Nat) (pageToken : String) (acc : List α) :
    walkGo src (fuel + 1) pageToken acc
      = match src pageToken with
        | .error e => some (.failed e acc)
        | .ok page =>
          if page.nextPageToken = "" then some (.done (acc ++ page.items))
          else walkGo src fuel page.nextPageToken (acc ++ page.items) := rfl

lemma walkGo_terminates {α : Type} (src : String → Except String (ApiPage α)) :
    ∀ (k : Nat) (c : String) (acc : List α),
      tokenChainFrom src c (k + 1) = "" →
      ∃ r, walkGo src (k + 1) c acc = some r := by
  intro k
  induction k with
  | zero =>
    intro c acc h
    have hnext : nextTokenOf src c = "" := h
    cases hsrc : src c with
    | error e =>
      refine ⟨.failed e acc, ?_⟩
      rw [walkGo_succ]
      simp only [hsrc]
    | ok page =>
      have hpage : page.nextPageToken = "" := by
        simpa [nextTokenOf, hsrc] using hnext
      refine ⟨.done (acc ++ page.items), ?_⟩
      rw [walkGo_succ]
      simp only [hsrc, hpage, if_pos]
  | succ m ih =>
    intro c acc h
    cases hsrc : src c with
    | error e =>
      refine ⟨.failed e acc, ?_⟩
      conv_lhs => rw [walkGo_succ]
      simp only [hsrc]
    | ok page =>
      by_cases hpage : page.nextPageToken = ""
      · refine ⟨.done (acc ++ page.items), ?_⟩
        conv_lhs => rw [walkGo_succ]
        simp only [hsrc, hpage, if_pos]
      · have hnextc : nextTokenOf src c = page.nextPageToken := by
          simp [nextTokenOf, hsrc]
        have h' : tokenChainFrom src page.nextPageToken (m + 1) = "" := by
          rw [← hnextc, ← tokenChainFrom_shift]
          exact h
        obtain ⟨r, hr⟩ := ih page.nextPageToken (acc ++ page.items) h'
        refine ⟨r, ?_⟩
        conv_lhs => rw [walkGo_succ]
        simp only [hsrc]
        rw [if_neg hpage]
        exact hr

/-- For a lawful `BEq`, `==` is `decide (· = ·)`. -/
lemma beq_eq_decide_eq {β : Type} [BEq β] [LawfulBEq β] [DecidableEq β] (x y : β) :
    (x == y) = decide (x = y) := by
  by_cases h : x = y
  · simp [h]
  · simp [h]

section LookupLemmas

variable {ν : Type}

lemma lookup_cons (k k' : Int) (v : ν) (rest : List (Int × ν)) :
    List.lookup k ((k', v) :: rest) = if k == k' then some v else List.lookup k rest := by
  by_cases h : (k == k') = true
  · simp [List.lookup, h]
  · simp [List.lookup, Bool.eq_false_iff.mpr h]

lemma lookup_append_single (m : List (Int × ν)) (b : Int) (e : ν) (k : Int) :
    List.lookup k (m ++ [(b, e)])
      = match List.lookup k m with
        | some v => some v
        | none => List.lookup k [(b, e)] := by
  induction m with
  | nil => rfl
  | cons p rest ih =>
    obtain ⟨k', v⟩ := p
    rw [List.cons_append, lookup_cons, lookup_cons]
    by_cases h : (k == k') = true
    · rw [if_pos h, if_pos h]
    · rw [if_neg h, if_neg h]
      exact ih

lemma lookup_map_modifyAt (m : List (Int × ν)) (b : Int) (g : ν → ν) (k : Int) :
    List.lookup k (m.map (fun p => if p.1 == b then (p.1, g p.2) else p))
      = if k == b then (List.lookup k m).map g else List.lookup k m := by
  induction m with
  | nil =>
    by_cases h : (k == b) = true
    · rw [List.map_nil, if_pos h]
      rfl
    · rw [List.map_nil, if_neg h]
  | cons p rest ih =>
    obtain ⟨k', v⟩ := p
    rw [List.map_cons]
    have hstep : (if ((k', v).1 == b) = true then ((k', v).1, g (k', v).2) else (k', v))
        = (k', if (k' == b) = true then g v else v) := by
      by_cases h : (k' == b) = true
      · rw [if_pos h, if_pos h]
      · rw [if_neg h, if_neg h]
    rw [hstep, lookup_cons, lookup_cons]
    by_cases h1 : (k == k') = true
    · have hkk : k = k' := by simpa using h1
      subst hkk
      rw [if_pos h1, if_pos h1]
      by_cases h2 : (k == b) = true
      · rw [if_pos h2, if_pos h2]
        rfl
      · rw [if_neg h2, if_neg h2]
    · rw [if_neg h1, if_neg h1]
      by_cases h2 : (k == b) = true
      · rw [if_pos h2, ih, if_pos h2]
      · rw [if_neg h2, ih, if_neg h2]

lemma any_fst_eq_lookup_isSome (m : List (Int × ν)) (b : Int) :
    m.any (fun p => p.1 == b) = (List.lookup b m).isSome := by
  induction m with
  | nil => rfl
  | cons p rest ih =>
    obtain ⟨k', v⟩ := p
    rw [List.any_cons, lookup_cons]
    by_cases h : k' = b
    · subst h
      rw [if_pos (beq_self_eq_true _)]
      simp
    · rw [if_neg (by simpa using Ne.symm h)]
      have h1 : ((k', v).1 == b) = false := by simpa using h
      rw [h1, Bool.false_or]
      exact ih

lemma lookup_of_mem_nodup (m : List (Int × ν))
    (nd : (m.map Prod.fst).Nodup) {p : Int × ν} (hp : p ∈ m) :
    List.lookup p.1 m = some p.2 := by
  induction m with
  | nil => cases hp
  | cons q rest ih =>
    obtain ⟨k', v⟩ := q
    obtain ⟨hnotin, ndrest⟩ := List.nodup_cons.mp nd
    rw [lookup_cons]
    rcases List.mem_cons.mp hp with rfl | hp'
    · rw [if_pos (beq_self_eq_true _)]
    · have hne : p.1 ≠ k' := by
        intro he
        exact hnotin (he ▸ List.mem_map.mpr ⟨p, hp', rfl⟩)
      rw [if_neg (by simpa using hne)]
      exact ih ndrest hp'

lemma mem_of_lookup_eq_some (m : List (Int × ν)) {k : Int} {e : ν}
    (h : List.lookup k m = some e) : (k, e) ∈ m := by
  induction m with
  | nil => cases h
  | cons q rest ih =>
    obtain ⟨k', v⟩ := q
    rw [lookup_cons] at h
    by_cases h1 : (k == k') = true
    · rw [if_pos h1] at h
      injection h with h
      have hkk : k = k' := by simpa using h1
      subst hkk
      subst h
      exact List.mem_cons_self _ _
    · rw [if_neg h1] at h
      exact List.mem_cons_of_mem _ (ih h)

lemma notin_keys_of_any_false (m : List (Int × ν)) (b : Int)
    (h : m.any (fun p => p.1 == b) = false) : b ∉ m.map Prod.fst := by
  intro hb
  rcases List.mem_map.mp hb with ⟨p, hp, rfl⟩
  have : m.any (fun q => q.1 == p.1) = true :=
    List.any_eq_true.mpr ⟨p, hp, beq_self_eq_true _⟩
  rw [this] at h
  cases h

end LookupLemmas

/-! ### Timeline fold invariant -/

/-- Total sentiment count of one timeline bin entry. -/
def sumTB (e : TimelineBin) : Nat := e.positive + e.neutral + e.negative

/-- Sum of an optional bin entry. -/
def optSum : Option TimelineBin → Nat
  | none => 0
  | some e => sumTB e

/-- Invariant of the bin map built by `processTimelineData`: distinct keys,
each entry's `bin` field equal to its key, each key a multiple of 30. -/
structure TLInv (m : List (Int × TimelineBin)) : Prop where
  nodup : (m.map Prod.fst).Nodup
  binEq : ∀ p ∈ m, p.2.bin = p.1
  key30 : ∀ p ∈ m, ∃ z : Int, p.1 = z * 30

lemma TLInv_nil : TLInv [] :=
  ⟨List.nodup_nil, fun _ h => absurd h (List.not_mem_nil _), fun _ h => absurd h (List.not_mem_nil _)⟩

lemma sumTB_bump {e : TimelineBin} {s : String}
    (hs : s ∈ ["positive", "neutral", "negative"]) :
    sumTB (bumpTimelineBin e s) = sumTB e + 1 ∧ (bumpTimelineBin e s).bin = e.bin := by
  have hs' : s = "positive" ∨ s = "neutral" ∨ s = "negative" := by simpa using hs
  rcases hs' with rfl | rfl | rfl
  · refine ⟨?_, rfl⟩
    show e.positive + 1 + e.neutral + e.negative = e.positive + e.neutral + e.negative + 1
    omega
  · refine ⟨?_, rfl⟩
    show e.positive + (e.neutral + 1) + e.negative = e.positive + e.neutral + e.negative + 1
    omega
  · refine ⟨?_, rfl⟩
    show e.positive + e.neutral + (e.negative + 1) = e.positive + e.neutral + e.negative + 1
    omega

/-- The condition of line 142 evaluates true on the three sentiment values. -/
lemma tl_cond_true {s : String} (hs : s ∈ ["positive", "neutral", "negative"]) :
    (s != "" && ["bin", "positive", "neutral", "negative"].contains s) = true := by
  have hs' : s = "positive" ∨ s = "neutral" ∨ s = "negative" := by simpa using hs
  rcases hs' with rfl | rfl | rfl <;> rfl

lemma option_int_beq_false {b k : Int} (h : b ≠ k) :
    ((some b : Option Int) == some k) = false :=
  beq_eq_false_iff_ne.mpr (by simpa using h)

/-- The map keys are untouched by the conditional increment. -/
lemma keys_map_modifyAt {ν : Type} (m : List (Int × ν)) (b : Int) (g : ν → ν) :
    (m.map (fun p => if p.1 == b then (p.1, g p.2) else p)).map Prod.fst
      = m.map Prod.fst := by
  rw [List.map_map]
  refine List.map_congr_left (fun p _ => ?_)
  show ((if (p.1 == b) = true then (p.1, g p.2) else p)).1 = p.1
  split <;> rfl

/-- One `tlStep` adds one to the looked-up sum at the record's bin key (when
the record resolves) and preserves the map invariant. -/
lemma tlStep_inv (m : List (Int × TimelineBin)) (c : Record)
    (hsent : c.sentiment ∈ ["positive", "neutral", "negative"]) (hinv : TLInv m) :
    TLInv (tlStep m c)
    ∧ ∀ k : Int, optSum (List.lookup k (tlStep m c))
        = optSum (List.lookup k m) + (if tlKey c == some k then 1 else 0) := by
  cases hkey : tlKey c with
  | none =>
    have hstep : tlStep m c = m := by
      unfold tlStep
      rw [hkey]
    rw [hstep]
    refine ⟨hinv, fun k => ?_⟩
    rw [show ((none : Option Int) == some k) = false from rfl]
    rfl
  | some b =>
    obtain ⟨ms, hms, hbin⟩ := Option.map_eq_some'.mp hkey
    have hb30 : ∃ z : Int, b = z * 30 := ⟨⌊((⌊ms / 1000⌋ : Int) : ℚ) / 30⌋, hbin.symm⟩
    have hcond := tl_cond_true hsent
    have hstep : tlStep m c
        = (if m.any (fun p => p.1 == b) then m else m ++ [(b, ⟨b, 0, 0, 0⟩)]).map
            (fun p => if p.1 == b then (p.1, bumpTimelineBin p.2 c.sentiment) else p) := by
      unfold tlStep
      rw [hkey]
      exact if_pos hcond
    rw [hstep]
    have hbump := fun (e : TimelineBin) => sumTB_bump (e := e) hsent
    by_cases hpresent : (m.any (fun p => p.1 == b)) = true
    · rw [if_pos hpresent]
      constructor
      · refine ⟨?_, ?_, ?_⟩
        · rw [keys_map_modifyAt m b (fun e => bumpTimelineBin e c.sentiment)]
          exact hinv.nodup
        · intro p hp
          rcases List.mem_map.mp hp with ⟨q, hq, rfl⟩
          show ((if (q.1 == b) = true then (q.1, bumpTimelineBin q.2 c.sentiment) else q)).2.bin
              = ((if (q.1 == b) = true then (q.1, bumpTimelineBin q.2 c.sentiment) else q)).1
          split
          · rw [(hbump q.2).2]
            exact hinv.binEq q hq
          · exact hinv.binEq q hq
        · intro p hp
          rcases List.mem_map.mp hp with ⟨q, hq, rfl⟩
          obtain ⟨z, hz⟩ := hinv.key30 q hq
          refine ⟨z, ?_⟩
          show ((if (q.1 == b) = true then (q.1, bumpTimelineBin q.2 c.sentiment) else q)).1 = z * 30
          split <;> exact hz
      · intro k
        rw [lookup_map_modifyAt m b (fun e => bumpTimelineBin e c.sentiment) k]
        by_cases hk : (k == b) = true
        · have hkb : k = b := by simpa using hk
          subst hkb
          rw [if_pos hk]
          have hsome : (List.lookup k m).isSome = true := by
            rw [← any_fst_eq_lookup_isSome]
            exact hpresent
          obtain ⟨e, he⟩ := Option.isSome_iff_exists.mp hsome
          rw [he, show ((some k : Option Int) == some k) = true from beq_self_eq_true _]
          show sumTB (bumpTimelineBin e c.sentiment) = sumTB e + 1
          exact (hbump e).1
        · rw [if_neg hk]
          have hkb : ¬(k = b) := by simpa using hk
          rw [option_int_beq_false (fun h => hkb h.symm)]
          rfl
    · rw [if_neg hpresent]
      have hfresh : b ∉ m.map Prod.fst :=
        notin_keys_of_any_false m b (Bool.eq_false_iff.mpr hpresent)
      constructor
      · refine ⟨?_, ?_, ?_⟩
        · rw [keys_map_modifyAt (m ++ [(b, (⟨b, 0, 0, 0⟩ : TimelineBin))]) b
            (fun e => bumpTimelineBin e c.sentiment), List.map_append]
          rw [List.nodup_append]
          refine ⟨hinv.nodup, List.nodup_singleton _, ?_⟩
          intro x hx hx'
          have : x = b := by simpa using hx'
          exact hfresh (this ▸ hx)
        · intro p hp
          rcases List.mem_map.mp hp with ⟨q, hq, rfl⟩
          rcases List.mem_append.mp hq with hq' | hq'
          · show ((if (q.1 == b) = true then (q.1, bumpTimelineBin q.2 c.sentiment) else q)).2.bin
                = ((if (q.1 == b) = true then (q.1, bumpTimelineBin q.2 c.sentiment) else q)).1
            split
            · rw [(hbump q.2).2]
              exact hinv.binEq q hq'
            · exact hinv.binEq q hq'
          · have hq'' : q = (b, ⟨b, 0, 0, 0⟩) := by simpa using hq'
            subst hq''
            show ((if (b == b) = true then (b, bumpTimelineBin ⟨b, 0, 0, 0⟩ c.sentiment)
                else (b, ⟨b, 0, 0, 0⟩))).2.bin
              = ((if (b == b) = true then (b, bumpTimelineBin ⟨b, 0, 0, 0⟩ c.sentiment)
                else (b, ⟨b, 0, 0, 0⟩))).1
            rw [if_pos (beq_self_eq_true b)]
            show (bumpTimelineBin ⟨b, 0, 0, 0⟩ c.sentiment).bin = b
            rw [(hbump ⟨b, 0, 0, 0⟩).2]
        · intro p hp
          rcases List.mem_map.mp hp with ⟨q, hq, rfl⟩
          rcases List.mem_append.mp hq with hq' | hq'
          · obtain ⟨z, hz⟩ := hinv.key30 q hq'
            refine ⟨z, ?_⟩
            show ((if (q.1 == b) = true then (q.1, bumpTimelineBin q.2 c.sentiment) else q)).1 = z * 30
            split <;> exact hz
          · have hq'' : q = (b, ⟨b, 0, 0, 0⟩) := by simpa using hq'
            subst hq''
            obtain ⟨z, hz⟩ := hb30
            refine ⟨z, ?_⟩
            show ((if (b == b) = true then (b, bumpTimelineBin ⟨b, 0, 0, 0⟩ c.sentiment)
                else (b, ⟨b, 0, 0, 0⟩))).1 = z * 30
            rw [if_pos (beq_self_eq_true b)]
            exact hz
      · intro k
        rw [lookup_map_modifyAt (m ++ [(b, (⟨b, 0, 0, 0⟩ : TimelineBin))]) b
          (fun e => bumpTimelineBin e c.sentiment) k, lookup_append_single]
        have hnone : List.lookup b m = none := by
          cases hl : List.lookup b m with
          | none => rfl
          | some e =>
            have h1 : (m.any fun p => p.1 == b) = true := by
              rw [any_fst_eq_lookup_isSome m b, hl]
              rfl
            exact absurd h1 hpresent
        by_cases hk : (k == b) = true
        · have hkb : k = b := by simpa using hk
          subst hkb
          rw [if_pos hk, hnone]
          rw [show List.lookup k [(k, (⟨k, 0, 0, 0⟩ : TimelineBin))]
              = some ⟨k, 0, 0, 0⟩ from by rw [lookup_cons, if_pos (beq_self_eq_true k)]]
          rw [show ((some k : Option Int) == some k) = true from beq_self_eq_true _]
          show sumTB (bumpTimelineBin ⟨k, 0, 0, 0⟩ c.sentiment) = 0 + 1
          rw [(hbump ⟨k, 0, 0, 0⟩).1]
          rfl
        · rw [if_neg hk]
          have hkb : ¬(k = b) := by simpa using hk
          rw [option_int_beq_false (fun h => hkb h.symm)]
          cases hl : List.lookup k m with
          | none =>
            show optSum (List.lookup k [(b, (⟨b, 0, 0, 0⟩ : TimelineBin))])
                = optSum (none : Option TimelineBin) + if (false = true) then 1 else 0
            rw [lookup_cons, if_neg (by simpa using hkb)]
            rfl
          | some e => rfl

/-- Folding `tlStep` over a record list: the invariant is preserved and each
key's summed counts grow by the number of records mapping to that key. -/
lemma tlFold_inv (R : List Record)
    (hsent : ∀ c ∈ R, c.sentiment ∈ ["positive", "neutral", "negative"]) :
    ∀ m : List (Int × TimelineBin), TLInv m →
      TLInv (R.foldl tlStep m)
      ∧ ∀ k : Int, optSum (List.lookup k (R.foldl tlStep m))
          = optSum (List.lookup k m) + (R.filter (fun c => tlKey c == some k)).length := by
  induction R with
  | nil =>
    intro m hinv
    exact ⟨hinv, fun k => by rw [List.filter_nil]; rfl⟩
  | cons c rest ih =>
    intro m hinv
    have hc := hsent c (List.mem_cons_self _ _)
    obtain ⟨hinv', hstep⟩ := tlStep_inv m c hc hinv
    obtain ⟨hinv'', hsum⟩ := ih (fun x hx => hsent x (List.mem_cons_of_mem _ hx))
      (tlStep m c) hinv'
    refine ⟨by rw [List.foldl_cons]; exact hinv'', fun k => ?_⟩
    rw [List.foldl_cons, hsum k, hstep k, List.filter_cons]
    by_cases hck : (tlKey c == some k) = true
    · rw [if_pos hck, if_pos hck, List.length_cons]
      omega
    · rw [if_neg hck, if_neg hck]
      omega

/-! ### Binning arithmetic -/

lemma floor_intCast_div_thirty (q : ℚ) : ⌊((⌊q⌋ : ℚ)) / 30⌋ = ⌊q / 30⌋ := by
  have h30 : (0 : ℚ) < 30 := by norm_num
  apply le_antisymm
  · exact Int.floor_le_floor ((div_le_div_right h30).mpr (Int.floor_le q))
  · rw [Int.le_floor, le_div_iff h30]
    have h1 : (⌊q / 30⌋ : ℚ) * 30 ≤ q := by
      have h2 := Int.floor_le (q / 30)
      have h3 : (⌊q / 30⌋ : ℚ) * 30 ≤ (q / 30) * 30 :=
        mul_le_mul_of_nonneg_right h2 (by norm_num)
      calc (⌊q / 30⌋ : ℚ) * 30 ≤ q / 30 * 30 := h3
        _ = q := div_mul_cancel₀ q (by norm_num)
    have h2 : ((⌊q / 30⌋ * 30 : ℤ) : ℚ) ≤ q := by
      push_cast
      exact h1
    have h3 : ⌊q / 30⌋ * 30 ≤ ⌊q⌋ := Int.le_floor.mpr h2
    calc (⌊q / 30⌋ : ℚ) * 30 = ((⌊q / 30⌋ * 30 : ℤ) : ℚ) := by push_cast; ring
      _ ≤ (⌊q⌋ : ℚ) := by exact_mod_cast h3

lemma binOfMs_of_small (ts : ℚ) (h0 : ts ≠ 0) (h : ts < 1000000000000) :
    toDateFromAny ts = some (ts * 1000) ∧ binOfMs (ts * 1000) = ⌊ts / 30⌋ * 30 := by
  constructor
  · unfold toDateFromAny
    rw [if_neg h0, if_pos h]
  · show ⌊((⌊ts * 1000 / 1000⌋ : Int) : ℚ) / 30⌋ * 30 = ⌊ts / 30⌋ * 30
    rw [mul_div_cancel_right₀ ts (by norm_num : (1000 : ℚ) ≠ 0)]
    rw [floor_intCast_div_thirty]

lemma tlKey_of_small {c : Record} (h0 : c.timestamp ≠ 0)
    (h : c.timestamp < 1000000000000) :
    tlKey c = some (⌊c.timestamp / 30⌋ * 30) := by
  obtain ⟨hdate, hbin⟩ := binOfMs_of_small c.timestamp h0 h
  unfold tlKey
  rw [hdate, Option.map_some', hbin]

/-- A record lands in the 30-aligned bin `z * 30` exactly when its timestamp
is resolvable and lies in the half-open interval `[z*30, z*30 + 30)`. -/
lemma tlKey_interval {c : Record} (hts : c.timestamp < 1000000000000) (z : Int) :
    (tlKey c = some (z * 30)) ↔
      (c.timestamp ≠ 0 ∧ ((z * 30 : ℤ) : ℚ) ≤ c.timestamp
        ∧ c.timestamp < ((z * 30 : ℤ) : ℚ) + 30) := by
  have h30 : (0 : ℚ) < 30 := by norm_num
  by_cases h0 : c.timestamp = 0
  · constructor
    · intro hk
      exfalso
      unfold tlKey toDateFromAny at hk
      rw [if_pos h0] at hk
      cases hk
    · rintro ⟨hne, -, -⟩
      exact absurd h0 hne
  · rw [tlKey_of_small h0 hts]
    constructor
    · intro hk
      injection hk with hk
      have hz : ⌊c.timestamp / 30⌋ = z := mul_right_cancel₀ (by norm_num : (30 : ℤ) ≠ 0) hk
      refine ⟨h0, ?_, ?_⟩
      · have h1 : (z : ℚ) ≤ c.timestamp / 30 := by
          rw [← hz]
          exact Int.floor_le _
        have h2 := (le_div_iff h30).mp h1
        push_cast
        linarith
      · have h1 : c.timestamp / 30 < (z : ℚ) + 1 := by
          rw [← hz]
          exact Int.lt_floor_add_one _
        have h2 := (div_lt_iff h30).mp h1
        push_cast
        linarith
    · rintro ⟨-, hge, hlt⟩
      have hz : ⌊c.timestamp / 30⌋ = z := by
        rw [Int.floor_eq_iff]
        constructor
        · rw [le_div_iff h30]
          push_cast at hge
          linarith
        · rw [div_lt_iff h30]
          push_cast at hlt
          linarith
      rw [hz]

/-- The repeated-cursor source keeps the outer walk spinning at every fuel. -/
lemma cexC1Src_spins (replyFuel : Nat) :
    ∀ (fuel : Nat) (tok : String) (acc : List String),
      fetchAllGo cexC1Src replyFuel fuel tok acc = none := by
  intro fuel
  induction fuel with
  | zero => intro tok acc; rfl
  | succ n ih =>
    intro tok acc
    show fetchAllGo cexC1Src replyFuel (n + 1) tok acc = none
    simp only [fetchAllGo, cexC1Src, processItems]
    exact ih "a" acc

/-! ## Claim C1: Page Walker termination -/

/-- C1 counterexample: the claim asserts that even a source repeating the
previously seen cursor leaves the Page Walker terminating.  On the code there
is no repeated-cursor guard: against a source answering every request with
the same token `"a"`, the outer `fetchAllComments` loop never finishes at any
fuel, i.e. it re-requests the same page forever. -/
theorem C1_counterexample :
    ¬ ∃ (fuel : Nat) (r : WalkResult String), fetchAllGo cexC1Src 1 fuel "" [] = some r := by
  rintro ⟨fuel, r, hr⟩
  rw [cexC1Src_spins 1 fuel "" []] at hr
  cases hr

/-- C1 (amended): the pagination loop terminates when a response carries no
continuation cursor — if the cursor chain from the first page reaches the
empty token within `k + 1` requests, the walk finishes within fuel `k + 1`;
but there is no guard against a repeating cursor: a source that always
returns the same token `"a"` keeps the outer walk of `fetchAllComments`
running forever (no fuel suffices). -/
theorem C1_pagination_amended {α : Type} :
    (∀ (src : String → Except String (ApiPage α)) (k : Nat),
      tokenChain src (k + 1) = "" →
      ∃ r, walkGo src (k + 1) "" [] = some r)
    ∧ (∀ replyFuel fuel : Nat, fetchAllGo cexC1Src replyFuel fuel "" [] = none) := by
  constructor
  · intro src k h
    exact walkGo_terminates src k "" [] h
  · intro replyFuel fuel
    exact cexC1Src_spins replyFuel fuel "" []

/-- C1 witness: the spec's three-page source `"" → "b" → "c" → ""` terminates
within three requests. -/
theorem C1_witness : ∃ r, walkGo threePageSrc 3 "" [] = some r :=
  (C1_pagination_amended (α := String)).1 threePageSrc 2 (by decide)

/-! ## Claim C2: sentiment-count projection -/

/-- A record whose classifier sentiment survives normalization as the
unrecognized value `"mixed"`. -/
def cexMixedRec : Record := sampleRec "mixed" "weak" 0 ""

/-- C2 counterexample: the claim asserts the projection always returns exactly
the three keys `positive`/`neutral`/`negative` summing to `|R|`, because
normalization defaults unrecognized sentiments to neutral.  Normalization
only defaults missing/empty sentiments; a record with the unrecognized
sentiment `"mixed"` makes `getSentimentCounts` append a fourth key, and the
three canonical values sum to `0 ≠ 1 = |R|`. -/
theorem C2_counterexample :
    getSentimentCounts [cexMixedRec]
      = [("positive", 0), ("neutral", 0), ("negative", 0), ("mixed", 1)]
    ∧ keysOf (getSentimentCounts [cexMixedRec]) ≠ ["positive", "neutral", "negative"]
    ∧ ¬ (0 + 0 + 0 = ([cexMixedRec] : List Record).length) := by
  refine ⟨by decide, by decide, by decide⟩

/-- C2 (amended): for every record set whose sentiments all lie in the fixed
domain `{positive, neutral, negative}` — in particular whenever the upstream
classifier only emits those values — `getSentimentCounts` returns exactly the
three keys `positive`, `neutral`, `negative` (in that order) and their values
sum to `|R|`; and a record whose sentiment field is missing is indeed
normalized to `"neutral"` upstream.  (A record with an unrecognized non-empty
sentiment instead appends an extra key, per the counterexample.) -/
theorem C2_sentiment_counts_amended :
    (∀ R : List Record, (∀ c ∈ R, c.sentiment ∈ ["positive", "neutral", "negative"]) →
      keysOf (getSentimentCounts R) = ["positive", "neutral", "negative"]
      ∧ valsSum (getSentimentCounts R) = R.length)
    ∧ (∀ p : Prediction, (normalizeComment { p with sentiment := none }).sentiment = "neutral") := by
  constructor
  · intro R h
    have hf := sentiment_fold R [("positive", 0), ("neutral", 0), ("negative", 0)]
      (by decide) (by intro c hc; exact h c hc)
    refine ⟨hf.1, ?_⟩
    have h2 := hf.2
    norm_num [valsSum] at h2
    exact h2
  · intro p
    rfl

/-- C2 witness: a two-record set with in-domain sentiments has exactly the
three keys and values summing to 2. -/
theorem C2_witness :
    keysOf (getSentimentCounts [sampleRec "positive" "strong" 1 "", sampleRec "neutral" "weak" 2 ""])
      = ["positive", "neutral", "negative"]
    ∧ valsSum (getSentimentCounts [sampleRec "positive" "strong" 1 "", sampleRec "neutral" "weak" 2 ""])
      = 2 :=
  C2_sentiment_counts_amended.1
    [sampleRec "positive" "strong" 1 "", sampleRec "neutral" "weak" 2 ""] (by decide)

/-! ## Claim C3: word-cloud size normalization -/

lemma sorted_wcGE_head_bound {l : List (String × Nat)} (hs : List.Sorted wcGE l)
    {x : String × Nat} (hx : x ∈ l) {h : String × Nat} (hh : l.head? = some h) :
    x.2 ≤ h.2 := by
  cases l with
  | nil => cases hx
  | cons a t =>
    have ha : a = h := by injection hh
    subst ha
    rcases List.mem_cons.mp hx with rfl | hx'
    · exact le_refl _
    · exact (List.pairwise_cons.mp hs).1 x hx'

lemma sorted_wcGE_last_bound {l : List (String × Nat)} (hs : List.Sorted wcGE l)
    {x : String × Nat} (hx : x ∈ l) {g : String × Nat} (hg : l.getLast? = some g) :
    g.2 ≤ x.2 := by
  induction l with
  | nil => cases hx
  | cons a t ih =>
    cases t with
    | nil =>
      rcases List.mem_cons.mp hx with rfl | hx'
      · have hag : x = g := by simpa using hg
        subst hag
        exact le_refl _
      · cases hx'
    | cons b t' =>
      rw [List.getLast?_cons_cons] at hg
      rcases List.mem_cons.mp hx with rfl | hx'
      · exact (List.pairwise_cons.mp hs).1 g (List.mem_of_mem_getLast? hg)
      · exact ih (List.pairwise_cons.mp hs).2 hx' hg

/-- Every surfaced word-cloud entry comes from an element of the sorted tally,
carrying the scaled size of its count. -/
lemma processWordCloudData_mem (rand : String → ℚ) (R : List Record)
    {e : WordCloudEntry} (he : e ∈ processWordCloudData rand R) :
    ∃ p : String × Nat, p ∈ wcSorted R ∧ e.word = p.1
      ∧ e.size = wcScale (wcMax R) (wcMin R) p.2 := by
  rcases List.mem_map.mp he with ⟨p, hp, rfl⟩
  exact ⟨p, List.take_subset 30 _ hp, rfl, rfl⟩

/-- Any count in the sorted tally lies between `wcMin` and `wcMax`. -/
lemma wc_count_bounds {R : List Record} {p : String × Nat} (hp : p ∈ wcSorted R) :
    wcMin R ≤ p.2 ∧ p.2 ≤ wcMax R := by
  have hs : List.Sorted wcGE (wcSorted R) := List.sorted_insertionSort wcGE _
  cases hl : wcSorted R with
  | nil => rw [hl] at hp; cases hp
  | cons a t =>
    rw [hl] at hp hs
    have hne : a :: t ≠ ([] : List (String × Nat)) := by simp
    have hmax : wcMax R = a.2 := by unfold wcMax; rw [hl]; rfl
    have hmin : wcMin R = ((a :: t).getLast hne).2 := by
      unfold wcMin
      rw [hl, List.getLast?_eq_getLast _ hne]
    constructor
    · rw [hmin]
      exact sorted_wcGE_last_bound hs hp (List.getLast?_eq_getLast _ hne)
    · rw [hmax]
      exact sorted_wcGE_head_bound hs hp rfl

lemma wcScale_bounds {maxC minC count : Nat} (h1 : minC ≤ count) (h2 : count ≤ maxC) :
    1 ≤ wcScale maxC minC count ∧ wcScale maxC minC count ≤ 5 := by
  unfold wcScale
  by_cases h : maxC = minC
  · rw [if_pos h]
    norm_num
  · rw [if_neg h]
    have hlt : (minC : ℚ) < (maxC : ℚ) := by exact_mod_cast by omega
    have hc1 : (minC : ℚ) ≤ (count : ℚ) := by exact_mod_cast h1
    have hc2 : (count : ℚ) ≤ (maxC : ℚ) := by exact_mod_cast h2
    have ht0 : (0 : ℚ) ≤ ((count : ℚ) - minC) / ((maxC : ℚ) - minC) :=
      div_nonneg (by linarith) (by linarith)
    have ht1 : ((count : ℚ) - minC) / ((maxC : ℚ) - minC) ≤ 1 := by
      rw [div_le_one (by linarith)]
      linarith
    constructor <;> nlinarith [ht0, ht1]

/-- The rotation oracle used in the concrete word-cloud runs: `Math.random()`
pinned to `0`. -/
def randZero : String → ℚ := fun _ => 0

/-- A single surfaced token: the word `hello` with count 1 (max = min = 1),
so the source's scale gives size 2 and the pinned oracle gives rotation 0. -/
lemma wc_hello_eval :
    processWordCloudData randZero [sampleRec "positive" "weak" 1 "hello"]
      = [{ word := "hello", size := 2, rotation := 0 }] := by
  rw [show processWordCloudData randZero [sampleRec "positive" "weak" 1 "hello"]
      = [{ word := "hello", size := wcScale 1 1 1,
           rotation := if (7 : ℚ) / 10 < randZero "hello" then -90 else 0 }] from rfl]
  rw [show randZero "hello" = 0 from rfl]
  rw [if_neg (by norm_num : ¬ ((7 : ℚ) / 10 < (0 : ℚ)))]
  rfl

/-- C3 counterexample: the claim asserts the size equals 1 when the maximum
and minimum surviving-token frequencies are equal.  With a single surviving
token (`max = min = 1`) the code's scale `max === min ? 2 : …` yields size 2,
not 1. -/
theorem C3_counterexample :
    processWordCloudData randZero [sampleRec "positive" "weak" 1 "hello"]
      = [{ word := "hello", size := 2, rotation := 0 }]
    ∧ ({ word := "hello", size := 2, rotation := 0 } : WordCloudEntry).size ≠ 1 := by
  refine ⟨wc_hello_eval, by norm_num⟩

/-- C3 (amended): every surfaced token's size value equals 2 (not 1) when the
maximum and minimum surviving-token frequencies are equal, and otherwise
equals `1 + (count - min) / (max - min) * 4` for the token's tally count
`count`, which lies between `min` and `max`; in all cases the size lies in
the interval `[1, 5]` and is linearly interpolated by relative frequency. -/
theorem C3_wordcloud_amended (rand : String → ℚ) (R : List Record) :
    ∀ e ∈ processWordCloudData rand R,
      1 ≤ e.size ∧ e.size ≤ 5
      ∧ ∃ c : Nat, (e.word, c) ∈ wcSorted R ∧ wcMin R ≤ c ∧ c ≤ wcMax R
        ∧ e.size = (if wcMax R = wcMin R then 2
            else 1 + ((c : ℚ) - (wcMin R : ℚ)) / ((wcMax R : ℚ) - (wcMin R : ℚ)) * 4) := by
  intro e he
  obtain ⟨p, hp, hw, hsz⟩ := processWordCloudData_mem rand R he
  obtain ⟨h1, h2⟩ := wc_count_bounds hp
  obtain ⟨hb1, hb2⟩ := wcScale_bounds h1 h2
  refine ⟨hsz ▸ hb1, hsz ▸ hb2, p.2, ?_, h1, h2, ?_⟩
  · rw [hw]
    exact hp
  · rw [hsz]
    rfl

/-- C3 witness: the amended statement evaluated at the single-token run. -/
theorem C3_witness :
    1 ≤ ({ word := "hello", size := 2, rotation := 0 } : WordCloudEntry).size
    ∧ ({ word := "hello", size := 2, rotation := 0 } : WordCloudEntry).size ≤ 5
    ∧ ∃ c : Nat,
        (({ word := "hello", size := 2, rotation := 0 } : WordCloudEntry).word, c)
          ∈ wcSorted [sampleRec "positive" "weak" 1 "hello"]
        ∧ wcMin [sampleRec "positive" "weak" 1 "hello"] ≤ c
        ∧ c ≤ wcMax [sampleRec "positive" "weak" 1 "hello"]
        ∧ ({ word := "hello", size := 2, rotation := 0 } : WordCloudEntry).size
          = (if wcMax [sampleRec "positive" "weak" 1 "hello"]
                = wcMin [sampleRec "positive" "weak" 1 "hello"] then 2
             else 1 + ((c : ℚ) - (wcMin [sampleRec "positive" "weak" 1 "hello"] : ℚ))
               / ((wcMax [sampleRec "positive" "weak" 1 "hello"] : ℚ)
                   - (wcMin [sampleRec "positive" "weak" 1 "hello"] : ℚ)) * 4) :=
  C3_wordcloud_amended randZero [sampleRec "positive" "weak" 1 "hello"]
    { word := "hello", size := 2, rotation := 0 }
    (by rw [wc_hello_eval]; exact List.mem_singleton_self _)

/-! ## Claim C4: retry policy of the Resilient Fetcher -/

/-- C4 counterexample: the claim asserts the terminal error carries the url.
Against an always-failing network for the url `"https://example.com/api"`,
the hardened `fetchWithRetry` throws
`Failed fetching URL after 3 attempts: boom`, whose text does not contain the
url anywhere (the url is only logged, never part of the thrown error). -/
theorem C4_counterexample :
    (fetchWithRetry parseNone errFieldNone "https://example.com/api" alwaysFailNet 3 100).result
      = .error "Failed fetching URL after 3 attempts: boom"
    ∧ ¬ mentionsSubstring "Failed fetching URL after 3 attempts: boom" "https://example.com/api" := by
  refine ⟨rfl, by decide⟩

/-- C4 (amended): for every url, `maxAttempts ≥ 1` and `baseDelay`: if every
attempt fails, the hardened `fetchWithRetry` makes exactly `maxAttempts`
attempts separated by exactly `maxAttempts - 1` delays, the delay before
attempt `i + 1` being `baseDelay * (1 + i)` (linear, not exponential), and
then fails with a terminal error carrying the attempt count and the last
attempt's failure reason (but not the url, which appears only in logs); if
some attempt succeeds with a parseable body, the parsed payload of that
(first succeeding) attempt is returned after the delays for the preceding
failures. -/
theorem C4_retry_amended {α : Type} (parse : String → Option α)
    (errField : α → Option String) (url : String) (net : Nat → FetchAttempt)
    (retries delay : Nat) :
    (∀ E : Nat → String, 1 ≤ retries →
      (∀ j, attemptEval parse errField (net j) = .error (E j)) →
      fetchWithRetry parse errField url net retries delay
        = ⟨retries, (List.range (retries - 1)).map (fun i => delay * (1 + i)),
            .error (exhaustMsg retries (E (retries - 1)))⟩)
    ∧ (∀ (k : Nat) (v : α), k < retries →
      (∀ j, j < k → ∃ e, attemptEval parse errField (net j) = .error e) →
      attemptEval parse errField (net k) = .ok v →
      fetchWithRetry parse errField url net retries delay
        = ⟨k + 1, (List.range k).map (fun i => delay * (1 + i)), .ok v⟩) := by
  constructor
  · intro E hret hE
    obtain ⟨rem, hrem⟩ : ∃ rem, rem + 1 = retries := ⟨retries - 1, by omega⟩
    unfold fetchWithRetry
    rw [← hrem]
    rw [fetchRetryGo_allfail (fun i => attemptEval parse errField (net i)) E (rem + 1) delay hE rem 0 (by omega)]
    rw [List.range_eq_range']
    rw [show rem + 1 - 1 = rem from by omega]
    rw [Nat.zero_add]
  · intro k v hk hfail hok
    obtain ⟨rem, hrem⟩ : ∃ rem, rem + 1 = retries := ⟨retries - 1, by omega⟩
    unfold fetchWithRetry
    rw [← hrem]
    rw [fetchRetryGo_firstSuccess (fun i => attemptEval parse errField (net i))
      (rem + 1) delay k v hfail hok rem 0 (by omega) (by omega) (by omega)]
    rw [List.range_eq_range']
    rfl

/-- C4 witness: the spec's own scenario — a source failing all of 3 attempts
with `baseDelay = 100` makes exactly 3 attempts, sleeps `100` then `200`
(linear backoff), and surfaces the last reason. -/
theorem C4_witness :
    fetchWithRetry parseNone errFieldNone "https://example.com/api" alwaysFailNet 3 100
      = ⟨3, [100, 200], .error (exhaustMsg 3 "boom")⟩ := by
  have h := (C4_retry_amended parseNone errFieldNone "https://example.com/api"
    alwaysFailNet 3 100).1 (fun _ => "boom") (by norm_num) (fun j => rfl)
  rw [h]
  rfl

/-! ## Claim C5: nested-walk failure isolation -/

/-- C5 counterexample: the claim asserts a failed nested reply walk
contributes zero children.  With a single thread item whose reply walk yields
one reply and then fails, the run result is `["c1", "r1"]` — the partial
reply is kept (the source explicitly returns partial replies), not dropped to
zero children (`["c1"]`). -/
theorem C5_counterexample :
    fetchAllComments cexC5Src 3 3 "vid" = some (.ok ["c1", "r1"])
    ∧ fetchAllComments cexC5Src 3 3 "vid" ≠ some (.ok ["c1"]) := by
  refine ⟨rfl, ?_⟩
  intro h
  rw [show fetchAllComments cexC5Src 3 3 "vid" = some (.ok ["c1", "r1"]) from rfl] at h
  simp at h

/-- C5 (amended): a failed nested reply walk is caught inside `fetchReplies`,
which returns the replies accumulated before the failure (zero only when the
first reply page already fails) instead of propagating the error; and the
outer item loop of `fetchAllComments` continues past such an item, appending
exactly those partial replies.  A nested-walk failure therefore never
terminates the run. -/
theorem C5_reply_isolation_amended {α : Type} :
    (∀ (src : String → Except String (ApiPage α)) (fuel : Nat) (e : String) (l : List α),
      walkGo src fuel "" [] = some (.failed e l) →
      fetchReplies src fuel = some l)
    ∧ (∀ (src : CommentsSource α) (replyFuel : Nat) (it : OuterItem α)
        (rest : List (OuterItem α)) (acc rs : List α),
      it.totalReplyCount > 0 →
      fetchReplies (src.replies it.id) replyFuel = some rs →
      processItems src replyFuel (it :: rest) acc
        = processItems src replyFuel rest
            ((acc ++ (match it.comment with | some c => [c] | none => [])) ++ rs)) := by
  constructor
  · intro src fuel e l h
    unfold fetchReplies
    rw [h]
    rfl
  · intro src replyFuel it rest acc rs hcount hrs
    rw [show processItems src replyFuel (it :: rest) acc
        = (let acc' := acc ++ (match it.comment with | some c => [c] | none => []);
           if it.totalReplyCount > 0 then
             match fetchReplies (src.replies it.id) replyFuel with
             | none => none
             | some rs => processItems src replyFuel rest (acc' ++ rs)
           else processItems src replyFuel rest acc') from rfl]
    rw [if_pos hcount, hrs]

/-- C5 witness: on the concrete failing source the nested walk degrades to
its partial reply list `["r1"]`. -/
theorem C5_witness : fetchReplies (cexC5Src.replies "p") 3 = some ["r1"] :=
  (C5_reply_isolation_amended (α := String)).1 (cexC5Src.replies "p") 3 "boom" ["r1"] (by decide)

/-! ## Claim C6: time-series projection -/

/-- A record set with one record of unrecognized sentiment in `[0, 30)` and
one zero-timestamp record (which the projection drops). -/
def cexTimelineR : List Record :=
  [sampleRec "mixed" "weak" 5 "", sampleRec "positive" "weak" 0 ""]

lemma cexTimeline_eval : processTimelineData cexTimelineR = [⟨0, 0, 0, 0⟩] := by
  have htl1 : tlKey (sampleRec "mixed" "weak" 5 "") = some 0 := by
    have h := tlKey_of_small (c := sampleRec "mixed" "weak" 5 "")
      (by norm_num [sampleRec]) (by norm_num [sampleRec])
    rw [h]
    norm_num [sampleRec]
  have htl2 : tlKey (sampleRec "positive" "weak" 0 "") = none := by
    unfold tlKey toDateFromAny
    rw [if_pos (by norm_num [sampleRec] : (sampleRec "positive" "weak" 0 "").timestamp = 0)]
    rfl
  have hs1 : tlStep [] (sampleRec "mixed" "weak" 5 "") = [(0, ⟨0, 0, 0, 0⟩)] := by
    unfold tlStep
    rw [htl1]
    rfl
  have hs2 : tlStep [(0, ⟨0, 0, 0, 0⟩)] (sampleRec "positive" "weak" 0 "") = [(0, ⟨0, 0, 0, 0⟩)] := by
    unfold tlStep
    rw [htl2]
  show List.insertionSort tlLE ((List.foldl tlStep [] cexTimelineR).map (fun p => p.2))
      = [⟨0, 0, 0, 0⟩]
  rw [show List.foldl tlStep [] cexTimelineR
      = tlStep (tlStep [] (sampleRec "mixed" "weak" 5 "")) (sampleRec "positive" "weak" 0 "") from rfl]
  rw [hs1, hs2]
  rfl

/-- C6 counterexample: the claim asserts each emitted bin's three counts sum
to the number of records of `R` with timestamp in `[bin, bin + 30)`.  With
one record of unrecognized sentiment `"mixed"` at t = 5 s and one record at
the (dropped) timestamp 0, the single emitted bin `[0, 30)` has counts
summing to 0 while two records of `R` fall in the interval. -/
theorem C6_counterexample :
    processTimelineData cexTimelineR = [⟨0, 0, 0, 0⟩]
    ∧ (cexTimelineR.filter (fun c => decide ((0 : ℚ) ≤ c.timestamp
        ∧ c.timestamp < (0 : ℚ) + 30))).length = 2
    ∧ (0 + 0 + 0 : Nat) ≠ 2 := by
  refine ⟨cexTimeline_eval, ?_, by omega⟩
  rw [show cexTimelineR
      = [sampleRec "mixed" "weak" 5 "", sampleRec "positive" "weak" 0 ""] from rfl]
  rw [List.filter_cons_of_pos (by
    rw [decide_eq_true_eq]
    norm_num [sampleRec])]
  rw [List.filter_cons_of_pos (by
    rw [decide_eq_true_eq]
    norm_num [sampleRec])]
  rfl

/-- C6 (amended): for every record set `R` whose timestamps are below `1e12`
(the unit heuristic's seconds range) and whose sentiments lie in the fixed
three-value domain, the time-series projection assigns each record with a
resolvable (non-zero) timestamp to the bin `⌊timestamp / 30⌋ * 30`, emits
bins in strictly ascending order of bin start, drops records with
unresolvable timestamps, and each emitted bin's three sentiment counts sum
to the number of records of `R` with a *resolvable* timestamp falling in
`[bin, bin + 30)` (a dropped zero-timestamp record lies in the bin `[0, 30)`
but is not counted, per the counterexample). -/
theorem C6_timeline_amended (R : List Record)
    (h : ∀ c ∈ R, c.timestamp < 1000000000000
        ∧ c.sentiment ∈ ["positive", "neutral", "negative"]) :
    List.Pairwise (fun a b => a.bin < b.bin) (processTimelineData R)
    ∧ (∀ c ∈ R, c.timestamp ≠ 0 →
        ∃ e ∈ processTimelineData R, e.bin = ⌊c.timestamp / 30⌋ * 30)
    ∧ (∀ e ∈ processTimelineData R,
        e.positive + e.neutral + e.negative
          = (R.filter (fun c => decide (c.timestamp ≠ 0
              ∧ (e.bin : ℚ) ≤ c.timestamp ∧ c.timestamp < (e.bin : ℚ) + 30))).length) := by
  obtain ⟨hinv, hsum⟩ := tlFold_inv R (fun c hc => (h c hc).2) [] TLInv_nil
  have hperm : (processTimelineData R).Perm ((R.foldl tlStep []).map (fun p => p.2)) := by
    unfold processTimelineData
    exact List.perm_insertionSort tlLE _
  have hsorted : List.Sorted tlLE (processTimelineData R) := by
    unfold processTimelineData
    exact List.sorted_insertionSort tlLE _
  have hbins : ((R.foldl tlStep []).map (fun p => p.2)).map (fun e => e.bin)
      = (R.foldl tlStep []).map Prod.fst := by
    rw [List.map_map]
    exact List.map_congr_left (fun p hp => hinv.binEq p hp)
  have hsum' : ∀ k : Int, optSum (List.lookup k (R.foldl tlStep []))
      = (R.filter (fun c => tlKey c == some k)).length := by
    intro k
    have h1 := hsum k
    rw [show optSum (List.lookup k ([] : List (Int × TimelineBin))) = 0 from rfl,
      Nat.zero_add] at h1
    exact h1
  have hmemval : ∀ e ∈ processTimelineData R,
      ∃ k, (k, e) ∈ R.foldl tlStep [] ∧ e.bin = k ∧ ∃ z : Int, k = z * 30 := by
    intro e he
    have he' : e ∈ (R.foldl tlStep []).map (fun p => p.2) := hperm.mem_iff.mp he
    rcases List.mem_map.mp he' with ⟨p, hp, rfl⟩
    exact ⟨p.1, by simpa using hp, hinv.binEq p hp, hinv.key30 p hp⟩
  refine ⟨?_, ?_, ?_⟩
  · have hnodupbins : ((processTimelineData R).map (fun e => e.bin)).Nodup := by
      have hpermb := hperm.map (fun e => e.bin)
      rw [hpermb.nodup_iff, hbins]
      exact hinv.nodup
    have hne : List.Pairwise (fun a b : TimelineBin => a.bin ≠ b.bin)
        (processTimelineData R) := List.pairwise_map.mp hnodupbins
    exact (List.Pairwise.and hsorted hne).imp (fun hab => lt_of_le_of_ne hab.1 hab.2)
  · intro c hc hne
    have hts := (h c hc).1
    have hkey := tlKey_of_small hne hts
    have hpos : 0 < (R.filter (fun x => tlKey x == some (⌊c.timestamp / 30⌋ * 30))).length := by
      have hcmem : c ∈ R.filter (fun x => tlKey x == some (⌊c.timestamp / 30⌋ * 30)) :=
        List.mem_filter.mpr ⟨hc, by rw [hkey]; exact beq_self_eq_true _⟩
      exact List.length_pos_of_mem hcmem
    obtain ⟨e, he⟩ : ∃ e, List.lookup (⌊c.timestamp / 30⌋ * 30) (R.foldl tlStep []) = some e := by
      cases hl : List.lookup (⌊c.timestamp / 30⌋ * 30) (R.foldl tlStep []) with
      | some e => exact ⟨e, rfl⟩
      | none =>
        exfalso
        have h1 := hsum' (⌊c.timestamp / 30⌋ * 30)
        rw [hl, show optSum none = 0 from rfl] at h1
        omega
    have hmemM : (⌊c.timestamp / 30⌋ * 30, e) ∈ R.foldl tlStep [] :=
      mem_of_lookup_eq_some _ he
    refine ⟨e, ?_, hinv.binEq _ hmemM⟩
    exact hperm.mem_iff.mpr (List.mem_map.mpr ⟨_, hmemM, rfl⟩)
  · intro e he
    obtain ⟨k, hkM, hbinEq, z, hz⟩ := hmemval e he
    have hlookup : List.lookup k (R.foldl tlStep []) = some e :=
      lookup_of_mem_nodup _ hinv.nodup hkM
    have h1 : sumTB e = (R.filter (fun c => tlKey c == some k)).length := by
      have h2 := hsum' k
      rw [hlookup] at h2
      exact h2
    have hfil : R.filter (fun c => tlKey c == some k)
        = R.filter (fun c => decide (c.timestamp ≠ 0
            ∧ (e.bin : ℚ) ≤ c.timestamp ∧ c.timestamp < (e.bin : ℚ) + 30)) := by
      apply List.filter_congr
      intro c hc
      have hts := (h c hc).1
      have hiff : tlKey c = some k ↔
          (c.timestamp ≠ 0 ∧ (e.bin : ℚ) ≤ c.timestamp
            ∧ c.timestamp < (e.bin : ℚ) + 30) := by
        subst hz
        rw [hbinEq]
        exact tlKey_interval hts z
      rw [beq_eq_decide_eq (tlKey c) (some k)]
      exact decide_eq_decide.mpr hiff
    show sumTB e = _
    rw [h1, hfil]

/-- C6 witness: a three-record set in two bins satisfies the amended
statement; in particular its bins are strictly ascending. -/
theorem C6_witness :
    List.Pairwise (fun a b => a.bin < b.bin)
      (processTimelineData
        [sampleRec "positive" "strong" 5 "", sampleRec "negative" "weak" 35 "",
         sampleRec "neutral" "weak" 20 ""]) :=
  (C6_timeline_amended
    [sampleRec "positive" "strong" 5 "", sampleRec "negative" "weak" 35 "",
     sampleRec "neutral" "weak" 20 ""]
    (by
      intro c hc
      have hc' : c = sampleRec "positive" "strong" 5 ""
          ∨ c = sampleRec "negative" "weak" 35 ""
          ∨ c = sampleRec "neutral" "weak" 20 "" := by simpa using hc
      rcases hc' with rfl | rfl | rfl <;>
        exact ⟨by norm_num [sampleRec], by decide⟩)).1

/-! ## Claim C7: strong/weak percentage guard -/

/-- Three strong and one weak positive records (the spec's Selection/Filter
example). -/
def ex3strong1weak : List Record :=
  [sampleRec "positive" "strong" 1 "", sampleRec "positive" "strong" 2 "",
   sampleRec "positive" "strong" 3 "", sampleRec "positive" "weak" 4 ""]

/-- C7: for every selected sentiment category the strong and weak percentages
are computed against the denominator `max(1, strongCount + weakCount)`
(the source's `|| 1` guard), so no division by zero occurs: with 3 strong and
1 weak matching records the percentages are 75 and 25, and with 0 matching
records both are 0. -/
theorem C7_breakdown_percentages :
    (∀ (R : List Record) (sel : String),
      (renderDetailedBreakdown R sel).strongPercent
        = (((R.filter (fun c => c.sentiment == sel)).filter (fun c => c.strength == "strong")).length : ℚ)
          / ((max 1 (((R.filter (fun c => c.sentiment == sel)).filter (fun c => c.strength == "strong")).length
              + ((R.filter (fun c => c.sentiment == sel)).filter (fun c => c.strength == "weak")).length) : Nat) : ℚ)
          * 100
      ∧ (renderDetailedBreakdown R sel).weakPercent
        = (((R.filter (fun c => c.sentiment == sel)).filter (fun c => c.strength == "weak")).length : ℚ)
          / ((max 1 (((R.filter (fun c => c.sentiment == sel)).filter (fun c => c.strength == "strong")).length
              + ((R.filter (fun c => c.sentiment == sel)).filter (fun c => c.strength == "weak")).length) : Nat) : ℚ)
          * 100)
    ∧ (renderDetailedBreakdown
        ex3strong1weak
        "positive").strongPercent = 75
    ∧ (renderDetailedBreakdown
        ex3strong1weak
        "positive").weakPercent = 25
    ∧ (renderDetailedBreakdown [] "positive").strongPercent = 0
    ∧ (renderDetailedBreakdown [] "positive").weakPercent = 0 := by
  have hgen : ∀ (R : List Record) (sel : String),
      (renderDetailedBreakdown R sel).strongPercent
        = (((R.filter (fun c => c.sentiment == sel)).filter (fun c => c.strength == "strong")).length : ℚ)
          / ((max 1 (((R.filter (fun c => c.sentiment == sel)).filter (fun c => c.strength == "strong")).length
              + ((R.filter (fun c => c.sentiment == sel)).filter (fun c => c.strength == "weak")).length) : Nat) : ℚ)
          * 100
      ∧ (renderDetailedBreakdown R sel).weakPercent
        = (((R.filter (fun c => c.sentiment == sel)).filter (fun c => c.strength == "weak")).length : ℚ)
          / ((max 1 (((R.filter (fun c => c.sentiment == sel)).filter (fun c => c.strength == "strong")).length
              + ((R.filter (fun c => c.sentiment == sel)).filter (fun c => c.strength == "weak")).length) : Nat) : ℚ)
          * 100 := by
    intro R sel
    show ((renderDetailedBreakdown R sel).strongPercent = _) ∧ ((renderDetailedBreakdown R sel).weakPercent = _)
    have hunfold : renderDetailedBreakdown R sel
        = { filteredCount := (R.filter (fun c => c.sentiment == sel)).length
          , strongPercent :=
              (((R.filter (fun c => c.sentiment == sel)).filter (fun c => c.strength == "strong")).length : ℚ)
              / ((if ((R.filter (fun c => c.sentiment == sel)).filter (fun c => c.strength == "strong")).length
                    + ((R.filter (fun c => c.sentiment == sel)).filter (fun c => c.strength == "weak")).length = 0
                  then 1
                  else ((R.filter (fun c => c.sentiment == sel)).filter (fun c => c.strength == "strong")).length
                    + ((R.filter (fun c => c.sentiment == sel)).filter (fun c => c.strength == "weak")).length : Nat) : ℚ)
              * 100
          , weakPercent :=
              (((R.filter (fun c => c.sentiment == sel)).filter (fun c => c.strength == "weak")).length : ℚ)
              / ((if ((R.filter (fun c => c.sentiment == sel)).filter (fun c => c.strength == "strong")).length
                    + ((R.filter (fun c => c.sentiment == sel)).filter (fun c => c.strength == "weak")).length = 0
                  then 1
                  else ((R.filter (fun c => c.sentiment == sel)).filter (fun c => c.strength == "strong")).length
                    + ((R.filter (fun c => c.sentiment == sel)).filter (fun c => c.strength == "weak")).length : Nat) : ℚ)
              * 100
          , strongTop5 := ((R.filter (fun c => c.sentiment == sel)).filter (fun c => c.strength == "strong")).take 5
          , weakTop5 := ((R.filter (fun c => c.sentiment == sel)).filter (fun c => c.strength == "weak")).take 5 } := rfl
    rw [hunfold]
    have hmax : (if ((R.filter (fun c => c.sentiment == sel)).filter (fun c => c.strength == "strong")).length
          + ((R.filter (fun c => c.sentiment == sel)).filter (fun c => c.strength == "weak")).length = 0
        then 1
        else ((R.filter (fun c => c.sentiment == sel)).filter (fun c => c.strength == "strong")).length
          + ((R.filter (fun c => c.sentiment == sel)).filter (fun c => c.strength == "weak")).length : Nat)
        = max 1 (((R.filter (fun c => c.sentiment == sel)).filter (fun c => c.strength == "strong")).length
          + ((R.filter (fun c => c.sentiment == sel)).filter (fun c => c.strength == "weak")).length) := by
      split <;> omega
    rw [hmax]
    exact ⟨rfl, rfl⟩
  have h3 : ((ex3strong1weak.filter (fun c => c.sentiment == "positive")).filter
      (fun c => c.strength == "strong")).length = 3 := rfl
  have h1 : ((ex3strong1weak.filter (fun c => c.sentiment == "positive")).filter
      (fun c => c.strength == "weak")).length = 1 := rfl
  refine ⟨hgen, ?_, ?_, ?_, ?_⟩
  · rw [(hgen ex3strong1weak "positive").1, h3, h1]
    rw [show (max 1 (3 + 1) : Nat) = 4 from rfl]
    norm_num
  · rw [(hgen ex3strong1weak "positive").2, h3, h1]
    rw [show (max 1 (3 + 1) : Nat) = 4 from rfl]
    norm_num
  · rw [(hgen [] "positive").1]
    norm_num
  · rw [(hgen [] "positive").2]
    norm_num

/-! ## Claim C8: exactly one response per trigger -/

/-- C8: for every inbound `fetchComments` trigger the message listener sends
exactly one response — either a success carrying the total count or an error
string — on every execution path (identifier-resolution failure, missing
credential, walk failure, thrown pipeline error, success). -/
theorem C8_single_response {α : Type} (env : ListenerEnv α) :
    (handleFetchComments env).length = 1
    ∧ ((∃ n, handleFetchComments env = [.success n])
        ∨ (∃ s, handleFetchComments env = [.failure s])) := by
  unfold handleFetchComments
  cases h1 : resolveVideoId env with
  | error resp =>
    cases resp with
    | success n => exact ⟨rfl, .inl ⟨n, rfl⟩⟩
    | failure s => exact ⟨rfl, .inr ⟨s, rfl⟩⟩
  | ok vid =>
    cases h2 : apiKeyValue env with
    | none => exact ⟨rfl, .inr ⟨_, rfl⟩⟩
    | some k =>
      cases h3 : env.fetchResult with
      | error e => exact ⟨rfl, .inr ⟨e, rfl⟩⟩
      | ok cs => exact ⟨rfl, .inl ⟨cs.length, rfl⟩⟩

/-! ## Claim C9: zero/falsy timestamps are dropped from the timeline -/

/-- C9: a record whose timestamp is `0` (the falsy numeric value, which
ingestion substitutes for a missing timestamp) is treated as unresolvable by
`toDateFromAny` and contributes nothing to the time-series projection: the
projection of `R` equals the projection of `R` without its zero-timestamp
records, so such records never appear in any bin. -/
theorem C9_zero_timestamp_dropped :
    toDateFromAny 0 = none
    ∧ (∀ R : List Record,
        processTimelineData R
          = processTimelineData (R.filter (fun c => decide (c.timestamp ≠ 0))))
    ∧ (∀ p : Prediction, (normalizeComment { p with timestamp := none }).timestamp = 0) := by
  refine ⟨rfl, ?_, fun p => rfl⟩
  have key : ∀ (R : List Record) (m : List (Int × TimelineBin)),
      R.foldl tlStep m = (R.filter (fun c => decide (c.timestamp ≠ 0))).foldl tlStep m := by
    intro R
    induction R with
    | nil => intro m; rfl
    | cons c rest ih =>
      intro m
      by_cases h : c.timestamp = 0
      · have hstep : tlStep m c = m := by
          unfold tlStep tlKey toDateFromAny
          rw [if_pos h]
          rfl
        rw [List.foldl_cons, hstep, List.filter_cons, if_neg (by simp [h])]
        exact ih m
      · rw [List.foldl_cons, List.filter_cons, if_pos (by simp [h]), List.foldl_cons]
        exact ih (tlStep m c)
  intro R
  unfold processTimelineData
  rw [key R []]

/-! ## Claim C10: zero retries -/

/-- C10: called with `retries ≤ 0` (i.e. `0`; a negative JS argument skips
the loop the same way), `fetchWithRetry`'s attempt loop never runs: no
network attempt is made, no delay is slept, and the hardened version throws
the `fetchWithRetry reached unexpected end` error — which is not the
exhaustion form (it does not even contain its `Failed fetching URL` prefix
text) — while the legacy popup copy throws its generic
`Failed fetching URL after 0 attempts` exhaustion error, which carries no
attempt failure reason (no `:` separator, as no attempt ever ran). -/
theorem C10_zero_retries {α : Type} (parse : String → Option α)
    (errField : α → Option String) (url : String) (net : Nat → FetchAttempt)
    (delay : Nat) (attemptOld : Nat → Except String α) :
    fetchWithRetry parse errField url net 0 delay = ⟨0, [], .error unexpectedEndMsg⟩
    ∧ ¬ mentionsSubstring unexpectedEndMsg "Failed fetching URL"
    ∧ fetchWithRetryOld attemptOld 0 delay = ⟨0, [], .error (exhaustMsgOld 0)⟩
    ∧ ¬ mentionsSubstring (exhaustMsgOld 0) ":" := by
  exact ⟨rfl, by decide, rfl, by decide⟩

end YTA
